import Mathlib

/-!
Shallow embedding of the Tetris Max web-port game engine
(`src/game.ts` = src/unnamed/part_006, `src/game.constants.ts` = src/unnamed/part_008,
`src/high-scores.ts`), with theorems checking the natural-language specification
against it.

Conventions of the embedding:
* JS arrays become Lean `List`s; in-place mutation becomes explicit state passing,
  with each JS assignment translated in source order.
* JS numbers that only ever hold integers become `Int` (tick counters, heights,
  offsets, scores) or `Nat` (board cells, colors, row indices, line counts, level).
* The real-time accumulator (`tick.accumulator`, fed with fractional milliseconds
  and compared against `TICK_MS = 1000/60`) becomes an exact rational `ℚ`.
* `Math.floor(Math.random() * 7)` (an environment input producing a piece index
  in 0..6) becomes an explicit stream `rand : List Nat` carried in the state;
  each draw pops the head and reduces it mod 7 so that arbitrary streams stay in
  the source's 0..6 range.
* Out-of-range JS array writes (negative index, or index beyond the row range)
  create properties that no loop of the engine ever reads back (all reads are at
  indices in [0,COLS)×[0,ROWS)), so the embedding's board write helper drops them.
-/

namespace TetrisMax

/-! ## Constants (game.constants.ts, src/unnamed/part_008) -/

def BOARD_COLS : Nat := 10
def BOARD_ROWS : Nat := 20

def TICK_MS : ℚ := 1000 / 60

def ZIP_DELAY_TICKS : Int := 10
def ZIP_RATE_TICKS : Int := 1
def FREEFALL_RATE_TICKS : Int := 2
def SLOW_MOVE_TICKS : Int := 15
def CLEAR_ANIM_TICKS : Int := 10

def SCORE_1_LINE : Int := 100
def SCORE_2_LINES : Int := 300
def SCORE_3_LINES : Int := 600
def SCORE_4_LINES : Int := 1000
def SCORE_SAME_COLOR_BONUS : Int := 2500
def SCORE_CLEAR_BOARD_BONUS : Int := 10000

/-- `LEVEL_SPEED` record from game.constants.ts (keys 1..10). -/
def LEVEL_SPEED : Nat → Int
  | 1 => 30 | 2 => 20 | 3 => 15 | 4 => 12 | 5 => 10
  | 6 => 8 | 7 => 7 | 8 => 6 | 9 => 5 | 10 => 4
  | _ => 0

/-- `LEVEL_THRESHOLD` record from game.constants.ts (keys 1..10). -/
def LEVEL_THRESHOLD : Nat → Nat
  | 1 => 10 | 2 => 20 | 3 => 30 | 4 => 40 | 5 => 50
  | 6 => 60 | 7 => 70 | 8 => 80 | 9 => 90 | 10 => 32000
  | _ => 0

/-! ## Data model -/

/-- `Sound` (sound.ts, src/unnamed/part_011): the symbolic event tokens. -/
inductive Sound where
  | drop | stick | clear1 | clear2 | clear3 | clear4
  | highscore | smallBonus | bigBonus | newLevel | gameOver | pause
  deriving DecidableEq, Repr

/-- `Piece` from game.constants.ts: `grid[col][rowFromBottom]` holds 0 or a color id. -/
structure Piece where
  height : Int
  offset : Int
  color : Nat
  grid : List (List Nat)
  deriving DecidableEq, Repr

/-- The board: column-major, `BOARD_COLS` columns of `BOARD_ROWS` cells. -/
abbrev Board := List (List Nat)

/-- Read `g[i][j]` on a nested list (missing entries read as 0, like the
    guarded uses in the source). -/
def gget (g : List (List Nat)) (i j : Nat) : Nat :=
  (g.getD i []).getD j 0

/-- Write `g[i][j] = v` on a nested list. -/
def gset (g : List (List Nat)) (i j : Nat) (v : Nat) : List (List Nat) :=
  g.set i ((g.getD i []).set j v)

/-- Read a board cell at possibly-negative (Int) indices; the engine only reads
    cells after guarding `0 ≤ x < COLS` and `0 ≤ y` (InLegalPos), so negative
    reads (JS `undefined`, falsy) are 0 here. -/
def bgetI (b : Board) (x y : Int) : Nat :=
  if 0 ≤ x ∧ 0 ≤ y then gget b x.toNat y.toNat else 0

/-- Write a board cell at Int indices; out-of-range JS writes create array
    properties never read back by the engine's loops, so they are dropped. -/
def bsetI (b : Board) (x y : Int) (v : Nat) : Board :=
  if 0 ≤ x ∧ 0 ≤ y then gset b x.toNat y.toNat v else b

/-- `PIECE_LIST` from game.constants.ts: the 7 templates, `color` = index,
    `height = BOARD_ROWS + 4 - 3`, `offset = ⌊BOARD_COLS/2⌋ - 2`. -/
def PIECE_LIST : List Piece :=
  [ [[0, 0, 0, 0], [0, 1, 1, 0], [0, 1, 1, 0], [0, 0, 0, 0]],
    [[0, 0, 0, 0], [2, 2, 2, 2], [0, 0, 0, 0], [0, 0, 0, 0]],
    [[0, 0, 0, 0], [0, 0, 0, 0], [3, 3, 3, 0], [0, 0, 3, 0]],
    [[0, 0, 0, 0], [0, 0, 4, 0], [4, 4, 4, 0], [0, 0, 0, 0]],
    [[0, 0, 0, 0], [0, 5, 5, 0], [5, 5, 0, 0], [0, 0, 0, 0]],
    [[0, 0, 0, 0], [6, 6, 0, 0], [0, 6, 6, 0], [0, 0, 0, 0]],
    [[0, 0, 0, 0], [0, 7, 0, 0], [0, 7, 7, 0], [0, 7, 0, 0]]
  ].enum.map fun (color, grid) =>
    { height := (BOARD_ROWS : Int) + 4 - 3
      offset := (BOARD_COLS : Int) / 2 - 2
      color := color
      grid := grid }

/-! ## Rotation (game.ts `rotateCw`, `rotateCCw`)

The source mutates the 4×4 grid in place through a chain of single-cell
assignments using a temporary; each assignment is translated below in the
exact source order, threading the evolving grid. -/

def rotateCw (color : Nat) (grid : List (List Nat)) : List (List Nat) :=
  match color with
  | 0 => grid
  | 1 =>
    -- Long block (I-piece) - 4x4 rotation
    let t := gget grid 1 0
    let g := gset grid 1 0 (gget grid 0 2)
    let g := gset g 0 2 (gget g 2 3)
    let g := gset g 2 3 (gget g 3 1)
    let g := gset g 3 1 t
    let t := gget g 2 0
    let g := gset g 2 0 (gget g 0 1)
    let g := gset g 0 1 (gget g 1 3)
    let g := gset g 1 3 (gget g 3 2)
    let g := gset g 3 2 t
    let t := gget g 1 1
    let g := gset g 1 1 (gget g 1 2)
    let g := gset g 1 2 (gget g 2 2)
    let g := gset g 2 2 (gget g 2 1)
    let g := gset g 2 1 t
    g
  | 2 | 3 | 4 | 5 | 6 =>
    -- L, J, S, Z, T pieces - 3x3 rotation
    let t := gget grid 1 0
    let g := gset grid 1 0 (gget grid 1 2)
    let g := gset g 1 2 (gget g 3 2)
    let g := gset g 3 2 (gget g 3 0)
    let g := gset g 3 0 t
    let t := gget g 2 0
    let g := gset g 2 0 (gget g 1 1)
    let g := gset g 1 1 (gget g 2 2)
    let g := gset g 2 2 (gget g 3 1)
    let g := gset g 3 1 t
    g
  | _ => grid

/-- `rotateCCw` (game.ts): three applications of `rotateCw`. -/
def rotateCCw (color : Nat) (grid : List (List Nat)) : List (List Nat) :=
  rotateCw color (rotateCw color (rotateCw color grid))

/-! ## Game state (`InternalGameState`, game.constants.ts) -/

structure ScoreState where
  currentScore : Int
  linesCleared : Nat
  currentLevel : Nat
  deriving DecidableEq, Repr

structure TimingState where
  lastDropTime : Int
  lastLeftTime : Int
  lastRightTime : Int
  deriving DecidableEq, Repr

structure MovementState where
  zippingL : Bool
  zippingR : Bool
  zipNow : Bool
  inFreefall : Bool
  movePieceSlowly : Bool
  downKeyActive : Bool
  pushKeyActive : Bool
  deriving DecidableEq, Repr

structure ClearAnimData where
  dropped : Nat
  bonus : Bool
  wasDropOrFreefall : Bool
  deriving DecidableEq, Repr

structure RowClearingState where
  rowsToClear : List Nat
  clearAnimStartTime : Int
  clearAnimData : Option ClearAnimData
  deriving DecidableEq, Repr

structure HardDropState where
  isHardDropping : Bool
  hardDropStartTime : Int
  deriving DecidableEq, Repr

structure TickState where
  accumulator : ℚ
  count : Int
  deriving DecidableEq, Repr

structure GameState where
  score : ScoreState
  isGameOver : Bool
  events : List Sound
  board : Board
  currentPiece : Option Piece
  nextPiece : Option Piece
  timing : TimingState
  movement : MovementState
  rowClearing : RowClearingState
  hardDrop : HardDropState
  pendingDropScore : Int
  tick : TickState
  rand : List Nat
  deriving DecidableEq, Repr

/-- `makeInitialGameState` (game.ts); the nested loop filling the board with 0
    builds `BOARD_COLS` columns of `BOARD_ROWS` zeros. The `rand` stream is the
    model of the environment's `Math.random` source. -/
def makeInitialGameState (rand : List Nat) : GameState where
  score := ⟨0, 0, 1⟩
  isGameOver := false
  events := []
  board := List.replicate BOARD_COLS (List.replicate BOARD_ROWS 0)
  currentPiece := none
  nextPiece := none
  timing := ⟨0, 0, 0⟩
  movement := ⟨false, false, false, false, false, false, false⟩
  rowClearing := ⟨[], 0, none⟩
  hardDrop := ⟨false, 0⟩
  pendingDropScore := 0
  tick := ⟨0, 0⟩
  rand := rand

/-- Model of `copyPiece(PIECE_LIST[Math.floor(Math.random() * 7)])`: pops the
    next environment draw (a piece index in 0..6) off the stream. -/
def randPiece (s : GameState) : Piece × GameState :=
  (PIECE_LIST.getD (s.rand.headD 0 % 7) ⟨0, 0, 0, []⟩,
   { s with rand := s.rand.tail })

/-! ## Collision and placement (game.ts `inLegalPos`, `placePiece`) -/

/-- The per-cell body of the `inLegalPos` double loop: `true` when the cell
    raises no objection (the source's early `return false`s become `false`
    here; with no side effects, all-of-cells is equivalent to the loop). -/
def cellLegal (b : Board) (p : Piece) (i j : Nat) : Bool :=
  if gget p.grid i j ≠ 0 then
    if (i : Int) + p.offset ≥ (BOARD_COLS : Int) ∨ (i : Int) + p.offset < 0 then false
    else if p.height - (j : Int) < 0 then false
    else if p.height - (j : Int) < (BOARD_ROWS : Int) then
      bgetI b ((i : Int) + p.offset) (p.height - (j : Int)) = 0
    else true
  else true

/-- `inLegalPos` (game.ts): every occupied cell of the 4×4 grid passes the
    bounds/collision checks. -/
def inLegalPos (b : Board) (p : Piece) : Bool :=
  (List.range 4).all fun i => (List.range 4).all fun j => cellLegal b p i j

/-- `placePiece` (game.ts): writes every occupied cell with computed row
    `< BOARD_ROWS` into the board, and reports `false` (overflow) if any
    occupied cell would lock at a row `≥ BOARD_ROWS`. Returns (ok, board). -/
def placePiece (b : Board) (p : Piece) : Bool × Board :=
  (List.range 4).foldl
    (fun acc i =>
      (List.range 4).foldl
        (fun (acc : Bool × Board) j =>
          if gget p.grid i j ≠ 0 then
            if p.height - (j : Int) < (BOARD_ROWS : Int) then
              (acc.1, bsetI acc.2 ((i : Int) + p.offset) (p.height - (j : Int)) (gget p.grid i j))
            else
              (false, acc.2)
          else acc)
        acc)
    (true, b)

/-! ## Row scan and clearing pipeline (game.ts `reduceRows`, `finishRowClearing`) -/

/-- The inner column scan of `reduceRows` for one row: returns
    `(rowFull, sameColor)`, with `firstColor`/`sameColor` threaded exactly as
    in the source (the early `break` on an empty cell becomes the first match
    arm). -/
def scanRow (cells : List Nat) (firstColor : Nat) (sameColor : Bool) : Bool × Bool :=
  match cells with
  | [] => (true, sameColor)
  | c :: rest =>
    if c = 0 then (false, sameColor)
    else
      scanRow rest (if firstColor = 0 then c else firstColor)
        (if firstColor ≠ 0 ∧ c ≠ firstColor then false else sameColor)

/-- The cells of board row `j` in column order, as read by the scan loop. -/
def rowCells (b : Board) (j : Nat) : List Nat :=
  (List.range BOARD_COLS).map fun i => gget b i j

/-- `resetMovementFlags` (game.ts). -/
def resetMovementFlags (s : GameState) : GameState :=
  { s with
    movement := ⟨false, false, false, false, false, false, false⟩
    hardDrop.isHardDropping := false }

/-- `startNextPiece` (game.ts): promote the next piece to current at the spawn
    position, draw a fresh next piece, and flag game over if the spawn
    position is illegal. -/
def startNextPiece (s : GameState) : GameState :=
  let s :=
    match s.nextPiece with
    | none =>
      -- First piece of game
      let (p, s') := randPiece s
      { s' with nextPiece := some p }
    | some _ => s
  match s.nextPiece with
  | some np =>
    let cur : Piece :=
      { np with
        height := (BOARD_ROWS : Int) + 4 - 3  -- Reset to starting height (21)
        offset := (BOARD_COLS : Int) / 2 - 2 } -- Center (3)
    let (p2, s2) := randPiece { s with currentPiece := some cur }
    let s3 := { s2 with nextPiece := some p2 }
    if ¬ inLegalPos s3.board cur then { s3 with isGameOver := true }
    else { s3 with timing.lastDropTime := s3.tick.count }
  | none => s

/-- One row of the full-row scan of `reduceRows`: record the row index when
    full, and raise the monochrome-bonus flag when the full row is all one
    color. -/
def scanStep (b : Board) (acc : List Nat × Bool) (j : Nat) : List Nat × Bool :=
  let (rowFull, sameColor) := scanRow (rowCells b j) 0 true
  if rowFull then (acc.1 ++ [j], acc.2 || sameColor) else acc

/-- `reduceRows` (game.ts): emit the placement sound, scan for full rows
    (recording the monochrome bonus), and either arm the clearing animation or
    spawn the next piece immediately. -/
def reduceRows (s : GameState) (wasDropOrFreefall : Bool) : GameState :=
  let s :=
    if wasDropOrFreefall then { s with events := s.events ++ [Sound.drop] }
    else { s with events := s.events ++ [Sound.stick] }
  let scanned := (List.range BOARD_ROWS).foldl (scanStep s.board) ([], false)
  let rowsToClear := scanned.1
  let bonus := scanned.2
  let dropped := rowsToClear.length
  if 0 < dropped then
    let s :=
      { s with
        rowClearing :=
          ⟨rowsToClear, s.tick.count, some ⟨dropped, bonus, wasDropOrFreefall⟩⟩ }
    if dropped = 1 then { s with events := s.events ++ [Sound.clear1] }
    else if dropped = 2 then { s with events := s.events ++ [Sound.clear2] }
    else if dropped = 3 then { s with events := s.events ++ [Sound.clear3] }
    else if dropped = 4 then { s with events := s.events ++ [Sound.clear4] }
    else s
  else
    startNextPiece (resetMovementFlags s)

/-- Insert into a descending list, keeping it descending. -/
def insertDesc (x : Nat) : List Nat → List Nat
  | [] => [x]
  | y :: ys => if y ≤ x then x :: y :: ys else y :: insertDesc x ys

/-- `rows.sort((a, b) => b - a)`: `rowsToClear` holds distinct row indices, so
    the JS comparator sort has the unique descending arrangement as result,
    which this insertion sort also produces. -/
def sortDesc : List Nat → List Nat
  | [] => []
  | x :: xs => insertDesc x (sortDesc xs)

/-- One step of the row-removal loop of `finishRowClearing`: shift every row
    above `row` down by one (reads of row `j+1` happen before that row is
    overwritten, so the loop copies the pre-loop contents) and zero the top
    row. -/
def removeRow (b : Board) (row : Nat) : Board :=
  let b :=
    (List.range' row (BOARD_ROWS - 1 - row)).foldl
      (fun b j =>
        (List.range BOARD_COLS).foldl (fun b i => gset b i j (gget b i (j + 1))) b)
      b
  (List.range BOARD_COLS).foldl (fun b i => gset b i (BOARD_ROWS - 1) 0) b

/-- The board-empty double loop of `finishRowClearing` (early exit dropped:
    no side effects). -/
def boardEmptyCheck (b : Board) : Bool :=
  (List.range BOARD_COLS).all fun i => (List.range BOARD_ROWS).all fun j => gget b i j = 0

/-- `finishRowClearing` (game.ts): award the flat line score, compact the
    recorded rows from highest index to lowest, award the board-clear and
    monochrome bonuses, check level-up, then reset flags and spawn the next
    piece. -/
def finishRowClearing (s : GameState) : GameState :=
  match s.rowClearing.clearAnimData with
  | none => s
  | some d =>
    let score1 : Int :=
      s.score.currentScore +
        (if d.dropped = 1 then SCORE_1_LINE
         else if d.dropped = 2 then SCORE_2_LINES
         else if d.dropped = 3 then SCORE_3_LINES
         else if d.dropped = 4 then SCORE_4_LINES
         else 0)
    -- `gRowsToClear.sort((a, b) => b - a)`: descending
    let sorted := sortDesc s.rowClearing.rowsToClear
    let board1 := sorted.foldl removeRow s.board
    let lines1 := s.score.linesCleared + d.dropped
    let empty1 := boardEmptyCheck board1
    let score2 := if empty1 then score1 + SCORE_CLEAR_BOARD_BONUS else score1
    let ev1 := if empty1 then s.events ++ [Sound.bigBonus] else s.events
    let score3 := if d.bonus then score2 + SCORE_SAME_COLOR_BONUS else score2
    let ev2 := if d.bonus && !empty1 then ev1 ++ [Sound.smallBonus] else ev1
    let lvlUp : Bool :=
      decide (LEVEL_THRESHOLD s.score.currentLevel ≤ lines1) && decide (s.score.currentLevel < 10)
    let lvl1 := if lvlUp then s.score.currentLevel + 1 else s.score.currentLevel
    let ev3 := if lvlUp && !d.bonus && !empty1 then ev2 ++ [Sound.newLevel] else ev2
    startNextPiece
      (resetMovementFlags
        { s with
          score := ⟨score3, lines1, lvl1⟩
          events := ev3
          board := board1
          rowClearing := ⟨[], s.rowClearing.clearAnimStartTime, none⟩ })

/-! ## Gravity / movement per tick (game.ts `animateActivePiece`) -/

/-- Zip arming of `animateActivePiece`: wait 10 ticks for zip mode to take
    effect (left check then right check, the second reading the first's
    result). -/
def zipArm (s : GameState) : GameState :=
  let s :=
    if s.tick.count - s.timing.lastLeftTime ≥ ZIP_DELAY_TICKS ∧
        s.movement.zippingL ∧ ¬s.movement.zipNow then
      { s with movement.zipNow := true }
    else s
  if s.tick.count - s.timing.lastRightTime ≥ ZIP_DELAY_TICKS ∧
      s.movement.zippingR ∧ ¬s.movement.zipNow then
    { s with movement.zipNow := true }
  else s

/-- "Zip left if it's time" block of `animateActivePiece`. -/
def zipMoveL (s : GameState) : GameState :=
  if s.tick.count - s.timing.lastLeftTime ≥ ZIP_RATE_TICKS ∧
      s.movement.zippingL ∧ s.movement.zipNow then
    match s.currentPiece with
    | some p =>
      let s := { s with timing.lastLeftTime := s.tick.count }
      let p' := { p with offset := p.offset - 1 }
      if ¬ inLegalPos s.board p' then s
      else { s with currentPiece := some p' }
    | none => s
  else s

/-- "Zip right if it's time" block of `animateActivePiece`. -/
def zipMoveR (s : GameState) : GameState :=
  if s.tick.count - s.timing.lastRightTime ≥ ZIP_RATE_TICKS ∧
      s.movement.zippingR ∧ s.movement.zipNow then
    match s.currentPiece with
    | some p =>
      let s := { s with timing.lastRightTime := s.tick.count }
      let p' := { p with offset := p.offset + 1 }
      if ¬ inLegalPos s.board p' then s
      else { s with currentPiece := some p' }
    | none => s
  else s

/-- The "determine if it's time to drop" computation of `animateActivePiece`:
    freefall every 2 ticks, lock-delay grace of 15 ticks, otherwise the level
    speed, with the level-10 even-height exception (effectively 3.5 ticks). -/
def shouldDropNow (s : GameState) : Bool :=
  if s.movement.inFreefall then
    decide (s.tick.count - s.timing.lastDropTime ≥ FREEFALL_RATE_TICKS)
  else if s.movement.movePieceSlowly then
    decide (s.tick.count - s.timing.lastDropTime ≥ SLOW_MOVE_TICKS)
  else
    if s.score.currentLevel = 10 ∧
        (match s.currentPiece with
         | some p => decide (p.height % 2 = 0)
         | none => false) = true then
      decide (s.tick.count - s.timing.lastDropTime ≥ LEVEL_SPEED s.score.currentLevel - 1)
    else
      decide (s.tick.count - s.timing.lastDropTime ≥ LEVEL_SPEED s.score.currentLevel)

/-- The descent branch of `animateActivePiece`, entered when it is time to
    drop: try one row down; on failure revert, and either lock (grace expired
    or freefall) or enter the lock-delay grace. -/
def gravityDrop (s : GameState) : GameState :=
  match s.currentPiece with
  | some p =>
    let s := { s with currentPiece := some { p with height := p.height - 1 } }
    let s :=
      if s.movement.inFreefall then
        { s with pendingDropScore := s.pendingDropScore + 1 }
      else s
    let p1 : Piece := { p with height := p.height - 1 }
    if inLegalPos s.board p1 then
      { s with movement.movePieceSlowly := false }
    else
      let s := { s with currentPiece := some p }
      if s.movement.movePieceSlowly ∨ s.movement.inFreefall then
        let wasFreefall := s.movement.inFreefall
        let s := { s with movement.movePieceSlowly := false }
        -- Add pending drop score when piece lands
        let s :=
          { s with
            score.currentScore := s.score.currentScore + s.pendingDropScore
            pendingDropScore := 0 }
        let (ok, b) := placePiece s.board p
        if ok then reduceRows { s with board := b } wasFreefall
        else { s with board := b, isGameOver := true }
      else
        -- Enter slow move mode (grace period before lock)
        { s with movement.movePieceSlowly := true }
  | none => s

/-- `animateActivePiece` (game.ts): zip arming and moves, then the gravity /
    freefall / lock-delay descent; the blocks run in source order over the
    evolving state. In the source the descent decrements `piece.height` in
    place and on failure increments it back, so `gravityDrop` tests the piece
    at `height - 1` and restores the original piece on failure. -/
def animateActivePiece (s : GameState) : GameState :=
  match s.currentPiece with
  | none => s
  | some _ =>
    let currentTicks := s.tick.count
    let s := zipMoveR (zipMoveL (zipArm s))
    if shouldDropNow s then
      { gravityDrop s with timing.lastDropTime := currentTicks }
    else s

/-! ## Hard drop (game.ts `processHardDrop`) -/

/-- `processHardDrop` (game.ts): advance the falling piece one row this tick;
    on the first illegal step retract the excess point, revert one row, commit
    the pending drop score and lock. -/
def processHardDrop (s : GameState) : GameState :=
  if ¬s.hardDrop.isHardDropping then s
  else
    match s.currentPiece with
    | none => s
    | some p =>
      let currentTicks := s.tick.count
      if currentTicks - s.hardDrop.hardDropStartTime ≥ 1 then
        let s := { s with hardDrop.hardDropStartTime := currentTicks }
        let p1 := { p with height := p.height - 1 }
        let s :=
          { s with
            currentPiece := some p1
            pendingDropScore := s.pendingDropScore + 1 }
        if ¬ inLegalPos s.board p1 then
          -- Hit bottom or collision
          let s := { s with pendingDropScore := s.pendingDropScore - 1 }
          let p2 := { p1 with height := p1.height + 1 }
          let s := { s with currentPiece := some p2, hardDrop.isHardDropping := false }
          -- Add pending drop score when piece lands
          let s :=
            { s with
              score.currentScore := s.score.currentScore + s.pendingDropScore
              pendingDropScore := 0 }
          let (ok, b) := placePiece s.board p2
          let s :=
            if ok then reduceRows { s with board := b } true
            else { s with board := b, isGameOver := true }
          { s with timing.lastDropTime := s.tick.count }
        else s
      else s

/-! ## Input handlers (game.ts `handleKeyDown`, `handleKeyUp`)

`handleKeyDown` is a sequence of independently guarded blocks over the mutable
state; each block becomes a step function and the handler their composition. -/

/-- JS `key.toLowerCase()`: the engine's logical keys are ASCII strings, for
    which per-character lowering coincides with the JS method. -/
def toLowerStr (s : String) : String := ⟨s.data.map Char.toLower⟩

/-- Rotate counter-clockwise (K key). -/
def keyRotCCw (k : String) (s : GameState) : GameState :=
  if k = "k" then
    match s.currentPiece with
    | some p =>
      let p1 := { p with grid := rotateCCw p.color p.grid }
      if ¬ inLegalPos s.board p1 then
        { s with currentPiece := some { p1 with grid := rotateCw p1.color p1.grid } }
      else { s with currentPiece := some p1 }
    | none => s
  else s

/-- Rotate clockwise (I key or Up arrow). -/
def keyRotCw (k : String) (s : GameState) : GameState :=
  if k = "i" ∨ k = "arrowup" then
    match s.currentPiece with
    | some p =>
      let p1 := { p with grid := rotateCw p.color p.grid }
      if ¬ inLegalPos s.board p1 then
        { s with currentPiece := some { p1 with grid := rotateCCw p1.color p1.grid } }
      else { s with currentPiece := some p1 }
    | none => s
  else s

/-- Push/Freefall (M key). -/
def keyPush (k : String) (s : GameState) : GameState :=
  if k = "m" ∧ ¬s.movement.pushKeyActive then
    { s with
      movement.inFreefall := true
      movement.pushKeyActive := true
      movement.zippingR := false
      movement.zippingL := false
      movement.zipNow := false }
  else s

/-- Move left (J key or Left arrow). -/
def keyLeft (k : String) (s : GameState) : GameState :=
  if k = "j" ∨ k = "arrowleft" then
    let s := { s with movement.zippingR := false }
    if ¬s.movement.zippingL then
      let s :=
        { s with
          movement.zippingL := true
          timing.lastLeftTime := s.tick.count }
      match s.currentPiece with
      | some p =>
        let p' := { p with offset := p.offset - 1 }
        if ¬ inLegalPos s.board p' then s
        else { s with currentPiece := some p' }
      | none => s
    else s
  else s

/-- Move right (L key or Right arrow). -/
def keyRight (k : String) (s : GameState) : GameState :=
  if k = "l" ∨ k = "arrowright" then
    let s := { s with movement.zippingL := false }
    if ¬s.movement.zippingR then
      let s :=
        { s with
          movement.zippingR := true
          timing.lastRightTime := s.tick.count }
      match s.currentPiece with
      | some p =>
        let p' := { p with offset := p.offset + 1 }
        if ¬ inLegalPos s.board p' then s
        else { s with currentPiece := some p' }
      | none => s
    else s
  else s

/-- Hard drop (Space or Down arrow); this block sits outside the
    `if (state.currentPiece)` guard in the source. -/
def keyHardDrop (k : String) (s : GameState) : GameState :=
  if (k = " " ∨ k = "arrowdown") ∧ ¬s.movement.downKeyActive ∧
      ¬s.hardDrop.isHardDropping then
    { s with
      movement.zippingR := false
      movement.zippingL := false
      movement.downKeyActive := true
      movement.movePieceSlowly := false
      hardDrop.isHardDropping := true
      hardDrop.hardDropStartTime := s.tick.count }
  else s

/-- `handleKeyDown` (game.ts): lowercase the key, ignore all input while hard
    dropping or while the row-clear animation is active, then run the guarded
    blocks in source order. -/
def handleKeyDown (s : GameState) (key : String) : GameState :=
  let k := toLowerStr key
  if s.hardDrop.isHardDropping ∨ ¬s.rowClearing.rowsToClear.isEmpty then s
  else
    let s1 :=
      match s.currentPiece with
      | some _ => keyRight k (keyLeft k (keyPush k (keyRotCw k (keyRotCCw k s))))
      | none => s
    keyHardDrop k s1

/-- `handleKeyUp` (game.ts). -/
def handleKeyUp (s : GameState) (key : String) : GameState :=
  let k := toLowerStr key
  let s :=
    if k = "j" ∨ k = "arrowleft" then
      { s with movement.zippingL := false, movement.zipNow := false }
    else s
  let s :=
    if k = "l" ∨ k = "arrowright" then
      { s with movement.zippingR := false, movement.zipNow := false }
    else s
  let s :=
    if k = "m" then
      { s with movement.inFreefall := false, movement.pushKeyActive := false }
    else s
  if k = " " ∨ k = "arrowdown" then
    { s with movement.downKeyActive := false }
  else s

/-! ## Tick scheduler (game.ts `tick`) -/

/-- The body of the `while (accumulator >= TICK_MS)` loop: advance the virtual
    tick counter, drain one tick's worth of time, and run one simulation
    step. -/
def tickOnce (s : GameState) : GameState :=
  let s :=
    { s with
      tick.count := s.tick.count + 1
      tick.accumulator := s.tick.accumulator - TICK_MS }
  if ¬s.rowClearing.rowsToClear.isEmpty then
    -- Check if row clearing animation is complete
    if s.tick.count - s.rowClearing.clearAnimStartTime ≥ CLEAR_ANIM_TICKS then
      finishRowClearing s
    else s
  else if s.hardDrop.isHardDropping then
    -- Process animated hard drop (row by row like original)
    processHardDrop s
  else
    animateActivePiece s

/-- Iterate the loop body a fixed number of times. -/
def tickIter : Nat → GameState → GameState
  | 0, s => s
  | n + 1, s => tickIter n (tickOnce s)

/-- `tick(deltaTime)` (game.ts): clear the event queue, add the elapsed time to
    the accumulator, and drain it. The loop body subtracts exactly `TICK_MS`
    from the accumulator once per iteration and nothing else in the engine
    writes the accumulator, so the `while (accumulator >= TICK_MS)` loop runs
    exactly `⌊accumulator / TICK_MS⌋` times (0 when the accumulator is below
    `TICK_MS`). -/
def tick (deltaTime : ℚ) (s : GameState) : GameState :=
  let s := { s with events := [], tick.accumulator := s.tick.accumulator + deltaTime }
  tickIter (⌊s.tick.accumulator / TICK_MS⌋.toNat) s

/-- `start(level)` (game.ts): reset the session (the environment's random
    stream carries over), set the level, spawn the first pieces, and arm the
    scheduler. -/
def start (level : Nat) (s : GameState) : GameState :=
  -- Initialize game
  let s0 := { makeInitialGameState s.rand with score.currentLevel := level }
  -- Spawn first piece
  let (p, s1) := randPiece s0
  let s2 := startNextPiece { s1 with nextPiece := some p }
  -- Start timing
  { s2 with timing.lastDropTime := s2.tick.count, tick.accumulator := 0 }

/-- `getEvents` (game.ts): `() => state.events` — a read of the queue; the
    closure performs no mutation, which the identity second component
    records. -/
def getEvents (s : GameState) : List Sound × GameState :=
  (s.events, s)

/-! ## The engine boundary as an input trace -/

/-- One call across the engine boundary. -/
inductive Op where
  | start (level : Nat)
  | tick (deltaTime : ℚ)
  | keyDown (key : String)
  | keyUp (key : String)
  deriving Repr

/-- Apply one boundary call. -/
def applyOp (s : GameState) : Op → GameState
  | .start l => start l s
  | .tick d => tick d s
  | .keyDown k => handleKeyDown s k
  | .keyUp k => handleKeyUp s k

/-- A run of the engine: fresh session over a given random stream, `start`,
    then the calls of the trace in order. -/
def runTrace (rand : List Nat) (level : Nat) (ops : List Op) : GameState :=
  ops.foldl applyOp (start level (makeInitialGameState rand))

/-! ## High scores (src/high-scores.ts) -/

structure HighScore where
  name : String
  score : Int
  rows : Nat
  date : String
  deriving DecidableEq, Repr

def HIGH_SCORE_COUNT : Nat := 10

/-- `isHighScore` (high-scores.ts): positive and at least one stored entry it
    ties or beats. -/
def isHighScore (highScores : List HighScore) (newScore : Int) : Bool :=
  0 < newScore && highScores.any fun h => newScore ≥ h.score

/-- The `for (let j = HIGH_SCORE_COUNT - 1; j > index; j--)` shift of
    `addHighScore`, descending from `j`; each slot `j` receives the value the
    list held at `j - 1` before this iteration (reads happen before the slot
    read is overwritten). -/
def shiftLoop (index : Nat) : Nat → List HighScore → List HighScore
  | 0, l => l
  | j + 1, l =>
    if index < j + 1 then
      shiftLoop index j (l.set (j + 1) (l.getD j ⟨"", 0, 0, ""⟩))
    else l

/-- `addHighScore` (high-scores.ts) restricted to candidates that qualify:
    in the source the call is gated by `isHighScore` (src/unnamed/part_005,
    line 146), which guarantees `findIndex` succeeds; on a failed find the JS
    writes at index `-1`, which is not a list operation, so the embedding
    returns `none` there. Returns the insertion index and the updated list. -/
def addHighScore (highScores : List HighScore) (entry : HighScore) :
    Option (Nat × List HighScore) :=
  match highScores.findIdx? (fun h => entry.score ≥ h.score) with
  | some index =>
    some (index, ((shiftLoop index (HIGH_SCORE_COUNT - 1) highScores).set index entry))
  | none => none

/-- The caller's use of the pair (src/unnamed/part_005, lines 146–150):
    `addHighScore` runs only when `isHighScore` holds; a non-qualifying score
    yields no insertion index. -/
def tryAddHighScore (highScores : List HighScore) (entry : HighScore) :
    Option (Nat × List HighScore) :=
  if isHighScore highScores entry.score then addHighScore highScores entry
  else none

/-! ## Theorems -/

/-- **C2.** For every color 0..6 and every 4×4 integer grid, applying
`rotateCw` four times returns the grid to exactly its original contents, and
`rotateCCw` is the exact inverse permutation of `rotateCw`: one application of
each, in either order, restores the grid cell-for-cell. -/
theorem rotateCw_fourth_power_id_and_rotateCCw_inverse
    (c : Nat) (hc : c < 7)
    (a00 a01 a02 a03 a10 a11 a12 a13 a20 a21 a22 a23 a30 a31 a32 a33 : Nat) :
    rotateCw c (rotateCw c (rotateCw c (rotateCw c
      [[a00, a01, a02, a03], [a10, a11, a12, a13],
       [a20, a21, a22, a23], [a30, a31, a32, a33]]))) =
      [[a00, a01, a02, a03], [a10, a11, a12, a13],
       [a20, a21, a22, a23], [a30, a31, a32, a33]] ∧
    rotateCCw c (rotateCw c
      [[a00, a01, a02, a03], [a10, a11, a12, a13],
       [a20, a21, a22, a23], [a30, a31, a32, a33]]) =
      [[a00, a01, a02, a03], [a10, a11, a12, a13],
       [a20, a21, a22, a23], [a30, a31, a32, a33]] ∧
    rotateCw c (rotateCCw c
      [[a00, a01, a02, a03], [a10, a11, a12, a13],
       [a20, a21, a22, a23], [a30, a31, a32, a33]]) =
      [[a00, a01, a02, a03], [a10, a11, a12, a13],
       [a20, a21, a22, a23], [a30, a31, a32, a33]] := by
  have h : rotateCw c (rotateCw c (rotateCw c (rotateCw c
      [[a00, a01, a02, a03], [a10, a11, a12, a13],
       [a20, a21, a22, a23], [a30, a31, a32, a33]]))) =
      [[a00, a01, a02, a03], [a10, a11, a12, a13],
       [a20, a21, a22, a23], [a30, a31, a32, a33]] := by
    interval_cases c <;> simp [rotateCw, gget, gset]
  exact ⟨h, by rw [rotateCCw]; exact h, by rw [rotateCCw]; exact h⟩

/-- Witness for C2 at color 2 and the "J" template grid. -/
theorem rotateCw_fourth_power_id_and_rotateCCw_inverse_witness :
    2 < 7 ∧
    (rotateCw 2 (rotateCw 2 (rotateCw 2 (rotateCw 2
      [[0, 0, 0, 0], [0, 0, 0, 0], [3, 3, 3, 0], [0, 0, 3, 0]]))) =
      [[0, 0, 0, 0], [0, 0, 0, 0], [3, 3, 3, 0], [0, 0, 3, 0]] ∧
    rotateCCw 2 (rotateCw 2
      [[0, 0, 0, 0], [0, 0, 0, 0], [3, 3, 3, 0], [0, 0, 3, 0]]) =
      [[0, 0, 0, 0], [0, 0, 0, 0], [3, 3, 3, 0], [0, 0, 3, 0]] ∧
    rotateCw 2 (rotateCCw 2
      [[0, 0, 0, 0], [0, 0, 0, 0], [3, 3, 3, 0], [0, 0, 3, 0]]) =
      [[0, 0, 0, 0], [0, 0, 0, 0], [3, 3, 3, 0], [0, 0, 3, 0]]) :=
  ⟨by decide,
   rotateCw_fourth_power_id_and_rotateCCw_inverse 2 (by decide)
     0 0 0 0 0 0 0 0 3 3 3 0 0 0 3 0⟩

/-- Per-cell characterization of the `inLegalPos` checks. -/
theorem cellLegal_eq_true_iff (b : Board) (p : Piece) (i j : Nat) :
    cellLegal b p i j = true ↔
      (gget p.grid i j ≠ 0 →
        ¬((i : Int) + p.offset < 0 ∨ (BOARD_COLS : Int) ≤ (i : Int) + p.offset ∨
          p.height - (j : Int) < 0 ∨
          (p.height - (j : Int) < (BOARD_ROWS : Int) ∧
           bgetI b ((i : Int) + p.offset) (p.height - (j : Int)) ≠ 0))) := by
  unfold cellLegal
  split_ifs with h1 h2 h3 h4 <;> simp_all
  all_goals first
  | tauto
  | (intro h5 h6; omega)

/-- **C3.** For every piece and board state, `inLegalPos` returns `false` if
and only if some occupied cell `(i, j)` of the piece's 4×4 grid has
`i + offset` outside `[0, 10)`, or `height - j < 0`, or `height - j < 20` with
the board cell `(i + offset, height - j)` non-zero. In particular an occupied
cell whose computed row `height - j` is `≥ 20` never causes rejection (no
disjunct of the right-hand side covers it). -/
theorem inLegalPos_false_iff (b : Board) (p : Piece) :
    inLegalPos b p = false ↔
      ∃ i < 4, ∃ j < 4, gget p.grid i j ≠ 0 ∧
        ((i : Int) + p.offset < 0 ∨ (BOARD_COLS : Int) ≤ (i : Int) + p.offset ∨
         p.height - (j : Int) < 0 ∨
         (p.height - (j : Int) < (BOARD_ROWS : Int) ∧
          bgetI b ((i : Int) + p.offset) (p.height - (j : Int)) ≠ 0)) := by
  rw [← Bool.not_eq_true]
  unfold inLegalPos
  simp only [List.all_eq_true, List.mem_range, cellLegal_eq_true_iff]
  push_neg
  rfl

/-- Unfolding of `tick`: the drain loop runs `⌊accumulator / TICK_MS⌋` times
    on the state with the queue cleared and the delta added. -/
theorem tick_eq (d : ℚ) (s : GameState) :
    tick d s = tickIter (⌊(s.tick.accumulator + d) / TICK_MS⌋.toNat)
      { s with events := [], tick.accumulator := s.tick.accumulator + d } := rfl

/-- A concrete engine run: fresh session with piece stream `[0,0,0]`, `start 1`,
    a hard-drop key press, then one `tick` call spanning 21 virtual ticks
    (350 ms), during which the square piece hard-drops 19 rows and locks,
    emitting the `drop` event. -/
def getEventsRunState : GameState :=
  tick 350 (handleKeyDown (start 1 (makeInitialGameState [0, 0, 0])) " ")

/-- **C7, counterexample.** After the concrete run above, `getEvents` returns
the token `drop`; calling `getEvents` again with no intervening engine
activity returns `[drop]` once more, not the empty list the claim predicts:
`getEvents` performs no drain. -/
theorem getEvents_does_not_drain_counterexample :
    (getEvents getEventsRunState).1 = [Sound.drop] ∧
    (getEvents ((getEvents getEventsRunState).2)).1 = [Sound.drop] ∧
    ¬((getEvents ((getEvents getEventsRunState).2)).1 = []) := by
  have hacc :
      (handleKeyDown (start 1 (makeInitialGameState [0, 0, 0])) " ").tick.accumulator
        = 0 := rfl
  have hn : (⌊((0 : ℚ) + 350) / TICK_MS⌋).toNat = 21 := by
    norm_num [TICK_MS]
    rfl
  unfold getEventsRunState
  rw [tick_eq, hacc, hn]
  refine ⟨?_, ?_, ?_⟩ <;> decide

/-- **C7, amended.** `getEvents()` returns the queue of symbolic event tokens
without draining it and without mutating any state; the queue is instead
cleared at the start of each `tick(deltaTime)` call, so the tokens returned
after a `tick` are exactly those produced during that call (they do not depend
on what the queue held before the call), and a second `getEvents()` with no
intervening engine activity returns the same token list again rather than an
empty one. -/
theorem getEvents_reads_queue_without_drain (s : GameState) (d : ℚ) (e : List Sound) :
    getEvents s = (s.events, s) ∧
    (getEvents ((getEvents s).2)).1 = (getEvents s).1 ∧
    (tick d { s with events := e }).events = (tick d s).events :=
  ⟨rfl, rfl, rfl⟩

/-- The frame the key handlers must preserve: board, score ledger (committed
    score, lines cleared, level), events, pending drop score, row-clear state,
    tick state, next piece, game-over flag, random stream, the gravity timing
    mark, and the active piece's height and color. -/
def KeyFrame (s t : GameState) : Prop :=
  t.board = s.board ∧ t.score = s.score ∧ t.events = s.events ∧
  t.pendingDropScore = s.pendingDropScore ∧ t.rowClearing = s.rowClearing ∧
  t.tick = s.tick ∧ t.nextPiece = s.nextPiece ∧ t.isGameOver = s.isGameOver ∧
  t.rand = s.rand ∧ t.timing.lastDropTime = s.timing.lastDropTime ∧
  t.currentPiece.map Piece.height = s.currentPiece.map Piece.height ∧
  t.currentPiece.map Piece.color = s.currentPiece.map Piece.color

theorem keyFrame_rfl (s : GameState) : KeyFrame s s := by
  simp [KeyFrame]

theorem keyFrame_trans {s t u : GameState} (h1 : KeyFrame s t) (h2 : KeyFrame t u) :
    KeyFrame s u := by
  obtain ⟨a1, a2, a3, a4, a5, a6, a7, a8, a9, a10, a11, a12⟩ := h1
  obtain ⟨b1, b2, b3, b4, b5, b6, b7, b8, b9, b10, b11, b12⟩ := h2
  exact ⟨b1.trans a1, b2.trans a2, b3.trans a3, b4.trans a4, b5.trans a5,
    b6.trans a6, b7.trans a7, b8.trans a8, b9.trans a9, b10.trans a10,
    b11.trans a11, b12.trans a12⟩

theorem keyRotCCw_frame (k : String) (s : GameState) : KeyFrame s (keyRotCCw k s) := by
  unfold keyRotCCw
  rcases hp : s.currentPiece with _ | p <;>
    simp only [hp] <;> split_ifs <;> simp [KeyFrame, hp]

theorem keyRotCw_frame (k : String) (s : GameState) : KeyFrame s (keyRotCw k s) := by
  unfold keyRotCw
  rcases hp : s.currentPiece with _ | p <;>
    simp only [hp] <;> split_ifs <;> simp [KeyFrame, hp]

theorem keyPush_frame (k : String) (s : GameState) : KeyFrame s (keyPush k s) := by
  unfold keyPush
  split_ifs <;> simp [KeyFrame]

theorem keyLeft_frame (k : String) (s : GameState) : KeyFrame s (keyLeft k s) := by
  unfold keyLeft
  rcases hp : s.currentPiece with _ | p <;>
    simp only [hp] <;> split_ifs <;> simp [KeyFrame, hp]

theorem keyRight_frame (k : String) (s : GameState) : KeyFrame s (keyRight k s) := by
  unfold keyRight
  rcases hp : s.currentPiece with _ | p <;>
    simp only [hp] <;> split_ifs <;> simp [KeyFrame, hp]

theorem keyHardDrop_frame (k : String) (s : GameState) : KeyFrame s (keyHardDrop k s) := by
  unfold keyHardDrop
  split_ifs <;> simp [KeyFrame]

theorem handleKeyDown_frame (s : GameState) (key : String) :
    KeyFrame s (handleKeyDown s key) := by
  unfold handleKeyDown
  split_ifs with h
  · exact keyFrame_rfl s
  · rcases hp : s.currentPiece with _ | p
    · simp only [hp]
      exact keyHardDrop_frame _ s
    · simp only [hp]
      exact keyFrame_trans
        (keyFrame_trans
          (keyFrame_trans
            (keyFrame_trans
              (keyFrame_trans (keyRotCCw_frame _ s) (keyRotCw_frame _ _))
              (keyPush_frame _ _))
            (keyLeft_frame _ _))
          (keyRight_frame _ _))
        (keyHardDrop_frame _ _)

theorem handleKeyUp_frame (s : GameState) (key : String) :
    (handleKeyUp s key).board = s.board ∧ (handleKeyUp s key).score = s.score ∧
    (handleKeyUp s key).events = s.events ∧
    (handleKeyUp s key).pendingDropScore = s.pendingDropScore ∧
    (handleKeyUp s key).rowClearing = s.rowClearing ∧
    (handleKeyUp s key).tick = s.tick ∧
    (handleKeyUp s key).currentPiece = s.currentPiece ∧
    (handleKeyUp s key).nextPiece = s.nextPiece ∧
    (handleKeyUp s key).isGameOver = s.isGameOver ∧
    (handleKeyUp s key).rand = s.rand ∧
    (handleKeyUp s key).timing = s.timing ∧
    (handleKeyUp s key).hardDrop = s.hardDrop := by
  unfold handleKeyUp
  dsimp only
  split_ifs <;> simp

/-- **C10.** For every game state and every key, `handleKeyDown` and
`handleKeyUp` never modify the board contents, the committed score, the
lines-cleared counter, or the level (all inside `score`): they change only the
active piece's grid/offset (height and color are preserved), the movement
flags, the per-direction timing marks, and the hard-drop state — the events,
pending drop score, row-clear state, tick state, next piece, game-over flag,
random stream and gravity timing mark are all untouched, and `handleKeyUp`
additionally leaves the piece, all timing marks and the hard-drop state
unchanged. -/
theorem key_handlers_frame_effect (s : GameState) (key : String) :
    KeyFrame s (handleKeyDown s key) ∧
    ((handleKeyUp s key).board = s.board ∧ (handleKeyUp s key).score = s.score ∧
     (handleKeyUp s key).events = s.events ∧
     (handleKeyUp s key).pendingDropScore = s.pendingDropScore ∧
     (handleKeyUp s key).rowClearing = s.rowClearing ∧
     (handleKeyUp s key).tick = s.tick ∧
     (handleKeyUp s key).currentPiece = s.currentPiece ∧
     (handleKeyUp s key).nextPiece = s.nextPiece ∧
     (handleKeyUp s key).isGameOver = s.isGameOver ∧
     (handleKeyUp s key).rand = s.rand ∧
     (handleKeyUp s key).timing = s.timing ∧
     (handleKeyUp s key).hardDrop = s.hardDrop) :=
  ⟨handleKeyDown_frame s key, handleKeyUp_frame s key⟩


theorem startNextPiece_preserves (s : GameState) :
    (startNextPiece s).score = s.score ∧ (startNextPiece s).events = s.events ∧
    (startNextPiece s).board = s.board ∧
    (startNextPiece s).rowClearing = s.rowClearing ∧
    (startNextPiece s).movement = s.movement ∧
    (startNextPiece s).hardDrop = s.hardDrop ∧
    (startNextPiece s).pendingDropScore = s.pendingDropScore ∧
    (startNextPiece s).tick = s.tick := by
  unfold startNextPiece randPiece
  rcases hp : s.nextPiece with _ | p <;> simp only [hp] <;> split_ifs <;> simp

/-- The compacted board after a clear resolution. -/
def clearedBoard (s : GameState) : Board :=
  (sortDesc s.rowClearing.rowsToClear).foldl removeRow s.board

/-- Flat score for the cleared row count. -/
def lineClearScore (dropped : Nat) : Int :=
  if dropped = 1 then SCORE_1_LINE
  else if dropped = 2 then SCORE_2_LINES
  else if dropped = 3 then SCORE_3_LINES
  else if dropped = 4 then SCORE_4_LINES
  else 0

theorem resetMovementFlags_score (s : GameState) :
    (resetMovementFlags s).score = s.score := rfl

theorem resetMovementFlags_events (s : GameState) :
    (resetMovementFlags s).events = s.events := rfl

theorem resetMovementFlags_board (s : GameState) :
    (resetMovementFlags s).board = s.board := rfl

theorem startNextPiece_score (s : GameState) : (startNextPiece s).score = s.score :=
  (startNextPiece_preserves s).1

theorem startNextPiece_events (s : GameState) : (startNextPiece s).events = s.events :=
  (startNextPiece_preserves s).2.1

theorem startNextPiece_board (s : GameState) : (startNextPiece s).board = s.board :=
  (startNextPiece_preserves s).2.2.1

theorem finishRowClearing_spec (s : GameState) (d : ClearAnimData)
    (h : s.rowClearing.clearAnimData = some d) :
    (finishRowClearing s).score.currentScore =
      s.score.currentScore + lineClearScore d.dropped +
        (if boardEmptyCheck (clearedBoard s) then SCORE_CLEAR_BOARD_BONUS else 0) +
        (if d.bonus then SCORE_SAME_COLOR_BONUS else 0) ∧
    (finishRowClearing s).score.linesCleared = s.score.linesCleared + d.dropped ∧
    (finishRowClearing s).score.currentLevel =
      (if LEVEL_THRESHOLD s.score.currentLevel ≤ s.score.linesCleared + d.dropped ∧
          s.score.currentLevel < 10
       then s.score.currentLevel + 1 else s.score.currentLevel) ∧
    (finishRowClearing s).board = clearedBoard s ∧
    (finishRowClearing s).events =
      s.events ++
        (if boardEmptyCheck (clearedBoard s) then [Sound.bigBonus] else []) ++
        (if d.bonus ∧ ¬boardEmptyCheck (clearedBoard s) then [Sound.smallBonus] else []) ++
        (if (LEVEL_THRESHOLD s.score.currentLevel ≤ s.score.linesCleared + d.dropped ∧
              s.score.currentLevel < 10) ∧
            ¬d.bonus ∧ ¬boardEmptyCheck (clearedBoard s)
         then [Sound.newLevel] else []) := by
  unfold finishRowClearing
  rw [h]
  dsimp only
  simp only [startNextPiece_score, startNextPiece_events, startNextPiece_board,
    resetMovementFlags_score, resetMovementFlags_events, resetMovementFlags_board]
  refine ⟨?_, True.intro, ?_, ?_, ?_⟩
  · unfold lineClearScore clearedBoard
    split_ifs <;> omega
  · simp only [Bool.and_eq_true, decide_eq_true_eq]
  · rfl
  · simp only [clearedBoard, Bool.and_eq_true, Bool.not_eq_true', decide_eq_true_eq]
    split_ifs <;> simp_all



theorem reduceRows_score (s : GameState) (w : Bool) :
    (reduceRows s w).score = s.score := by
  unfold reduceRows
  dsimp only
  split_ifs <;> simp [startNextPiece_score, resetMovementFlags_score]

theorem zipArm_frame2 (s : GameState) :
    (zipArm s).score = s.score ∧ (zipArm s).tick = s.tick := by
  unfold zipArm
  dsimp only
  split_ifs <;> simp

theorem zipMoveL_frame2 (s : GameState) :
    (zipMoveL s).score = s.score ∧ (zipMoveL s).tick = s.tick := by
  unfold zipMoveL
  rcases hp : s.currentPiece with _ | p <;> simp only [hp] <;> split_ifs <;> simp

theorem zipMoveR_frame2 (s : GameState) :
    (zipMoveR s).score = s.score ∧ (zipMoveR s).tick = s.tick := by
  unfold zipMoveR
  rcases hp : s.currentPiece with _ | p <;> simp only [hp] <;> split_ifs <;> simp

theorem gravityDrop_level (s : GameState) :
    (gravityDrop s).score.currentLevel = s.score.currentLevel := by
  unfold gravityDrop
  rcases hp : s.currentPiece with _ | p
  · simp only [hp]
  · simp only [hp]
    split_ifs <;>
      simp [reduceRows_score, startNextPiece_score, resetMovementFlags_score]

theorem animateActivePiece_level (s : GameState) :
    (animateActivePiece s).score.currentLevel = s.score.currentLevel := by
  unfold animateActivePiece
  rcases hp : s.currentPiece with _ | p
  · simp only [hp]
  · simp only [hp]
    split_ifs
    · rw [show ({ gravityDrop (zipMoveR (zipMoveL (zipArm s))) with
        timing.lastDropTime := s.tick.count } : GameState).score.currentLevel =
          (gravityDrop (zipMoveR (zipMoveL (zipArm s)))).score.currentLevel from rfl,
        gravityDrop_level]
      rw [(zipMoveR_frame2 _).1, (zipMoveL_frame2 _).1, (zipArm_frame2 _).1]
    · rw [(zipMoveR_frame2 _).1, (zipMoveL_frame2 _).1, (zipArm_frame2 _).1]



theorem processHardDrop_level (s : GameState) :
    (processHardDrop s).score.currentLevel = s.score.currentLevel := by
  unfold processHardDrop
  split_ifs with h1
  all_goals try rfl
  rcases hp : s.currentPiece with _ | p
  · simp only [hp]
  · simp only [hp]
    split_ifs <;>
      simp [reduceRows_score, startNextPiece_score, resetMovementFlags_score]

theorem finishRowClearing_level_le (s : GameState)
    (h : s.score.currentLevel ≤ 10) :
    (finishRowClearing s).score.currentLevel ≤ 10 := by
  rcases hd : s.rowClearing.clearAnimData with _ | d
  · unfold finishRowClearing
    rw [hd]
    exact h
  · have := (finishRowClearing_spec s d hd).2.2.1
    rw [this]
    split_ifs with h2
    · omega
    · exact h

theorem tickOnce_level_le (s : GameState) (h : s.score.currentLevel ≤ 10) :
    (tickOnce s).score.currentLevel ≤ 10 := by
  unfold tickOnce
  dsimp only
  split_ifs
  all_goals first
  | exact finishRowClearing_level_le _ h
  | (rw [processHardDrop_level]; exact h)
  | (rw [animateActivePiece_level]; exact h)
  | exact h

theorem tickIter_level_le (n : Nat) (s : GameState) (h : s.score.currentLevel ≤ 10) :
    (tickIter n s).score.currentLevel ≤ 10 := by
  induction n generalizing s with
  | zero => exact h
  | succ n ih => exact ih _ (tickOnce_level_le s h)

theorem tick_level_le (d : ℚ) (s : GameState) (h : s.score.currentLevel ≤ 10) :
    (tick d s).score.currentLevel ≤ 10 := by
  rw [tick_eq]
  exact tickIter_level_le _ _ h

theorem start_level (l : Nat) (s : GameState) :
    (start l s).score.currentLevel = l := by
  simp only [start, randPiece]
  rw [startNextPiece_score]

theorem applyOp_level_le (s : GameState) (op : Op)
    (hop : ∀ l, op = Op.start l → l ≤ 10)
    (h : s.score.currentLevel ≤ 10) :
    (applyOp s op).score.currentLevel ≤ 10 := by
  rcases op with l | d | k | k
  · rw [applyOp, start_level]
    exact hop l rfl
  · exact tick_level_le d s h
  · have := (handleKeyDown_frame s k).2.1
    rw [applyOp, this]
    exact h
  · have := (handleKeyUp_frame s k).2.1
    rw [applyOp, this]
    exact h



theorem foldl_applyOp_level_le (ops : List Op) (s : GameState)
    (hops : ∀ l, Op.start l ∈ ops → l ≤ 10)
    (h : s.score.currentLevel ≤ 10) :
    (ops.foldl applyOp s).score.currentLevel ≤ 10 := by
  induction ops generalizing s with
  | nil => exact h
  | cons op rest ih =>
    refine ih _ (fun l hl => hops l (List.mem_cons_of_mem _ hl)) ?_
    refine applyOp_level_le s op (fun l hl => ?_) h
    exact hops l (hl ▸ List.mem_cons_self _ _)

theorem runTrace_level_le (rand : List Nat) (level : Nat) (ops : List Op)
    (hlevel : level ≤ 10) (hops : ∀ l, Op.start l ∈ ops → l ≤ 10) :
    (runTrace rand level ops).score.currentLevel ≤ 10 := by
  unfold runTrace
  refine foldl_applyOp_level_le ops _ hops ?_
  rw [start_level]
  exact hlevel

/-- **C4.** In every row-clear resolution the level increments by exactly one
when the updated lines-cleared count reaches `LEVEL_THRESHOLD[level]` and
`level < 10`, and otherwise stays unchanged; consequently, in every state
reachable through the engine boundary (a `start` with level ≤ 10 followed by
any trace of `tick`/key calls, with further `start`s also at level ≤ 10), the
level never exceeds 10. -/
theorem level_up_rule_and_cap
    (s : GameState) (d : ClearAnimData)
    (h : s.rowClearing.clearAnimData = some d) :
    ((finishRowClearing s).score.currentLevel =
      if LEVEL_THRESHOLD s.score.currentLevel ≤ s.score.linesCleared + d.dropped ∧
          s.score.currentLevel < 10
      then s.score.currentLevel + 1 else s.score.currentLevel) ∧
    (∀ (rand : List Nat) (level : Nat) (ops : List Op),
      level ≤ 10 → (∀ l, Op.start l ∈ ops → l ≤ 10) →
      (runTrace rand level ops).score.currentLevel ≤ 10) :=
  ⟨(finishRowClearing_spec s d h).2.2.1,
   fun rand level ops h1 h2 => runTrace_level_le rand level ops h1 h2⟩

/-- A state mid-resolution: one full row recorded, 9 lines already cleared at
    level 1, so this resolution crosses the threshold of 10. -/
def levelUpExampleState : GameState :=
  { makeInitialGameState [] with
    score := ⟨0, 9, 1⟩
    rowClearing := ⟨[0], 0, some ⟨1, false, false⟩⟩ }

/-- Witness for C4 at a concrete mid-resolution state and a concrete trace. -/
theorem level_up_rule_and_cap_witness :
    ((finishRowClearing levelUpExampleState).score.currentLevel =
      if LEVEL_THRESHOLD levelUpExampleState.score.currentLevel ≤
          levelUpExampleState.score.linesCleared + 1 ∧
          levelUpExampleState.score.currentLevel < 10
      then levelUpExampleState.score.currentLevel + 1
      else levelUpExampleState.score.currentLevel) ∧
    (runTrace [3, 5] 1 [Op.keyDown "i", Op.keyUp "i"]).score.currentLevel ≤ 10 :=
  ⟨(level_up_rule_and_cap levelUpExampleState ⟨1, false, false⟩ rfl).1,
   (level_up_rule_and_cap levelUpExampleState ⟨1, false, false⟩ rfl).2
     [3, 5] 1 [Op.keyDown "i", Op.keyUp "i"] (by decide) (by simp)⟩

/-- **C1.** For every row-clear resolution that completes
(`finishRowClearing`) after clearing exactly 1, 2, 3 or 4 full rows, the base
score awarded for the rows is exactly 100, 300, 600 or 1000 respectively
(beyond it only the two bonuses can contribute), with no level multiplier:
the awarded amount is the same for every current level 1..10, which appears
nowhere on the right-hand side. -/
theorem finishRowClearing_flat_line_score
    (s : GameState) (d : ClearAnimData)
    (h : s.rowClearing.clearAnimData = some d)
    (hd1 : 1 ≤ d.dropped) (hd4 : d.dropped ≤ 4)
    (_hlvl1 : 1 ≤ s.score.currentLevel) (_hlvl10 : s.score.currentLevel ≤ 10) :
    (finishRowClearing s).score.currentScore =
      s.score.currentScore +
        (if d.dropped = 1 then 100 else if d.dropped = 2 then 300
         else if d.dropped = 3 then 600 else 1000) +
        (if boardEmptyCheck (clearedBoard s) then SCORE_CLEAR_BOARD_BONUS else 0) +
        (if d.bonus then SCORE_SAME_COLOR_BONUS else 0) := by
  rw [(finishRowClearing_spec s d h).1]
  unfold lineClearScore SCORE_1_LINE SCORE_2_LINES SCORE_3_LINES SCORE_4_LINES
  split_ifs <;> omega

/-- A state mid-resolution with two full rows recorded, at level 5. -/
def twoRowClearState : GameState :=
  { makeInitialGameState [] with
    score := ⟨0, 0, 5⟩
    rowClearing := ⟨[0, 1], 0, some ⟨2, false, false⟩⟩ }

/-- Witness for C1 at a concrete two-row resolution at level 5. -/
theorem finishRowClearing_flat_line_score_witness :
    1 ≤ (2 : Nat) ∧ (2 : Nat) ≤ 4 ∧ 1 ≤ (5 : Nat) ∧ (5 : Nat) ≤ 10 ∧
    (finishRowClearing twoRowClearState).score.currentScore =
      twoRowClearState.score.currentScore +
        (if (2 : Nat) = 1 then 100 else if (2 : Nat) = 2 then 300
         else if (2 : Nat) = 3 then 600 else 1000) +
        (if boardEmptyCheck (clearedBoard twoRowClearState) then SCORE_CLEAR_BOARD_BONUS else 0) +
        (if (false : Bool) then SCORE_SAME_COLOR_BONUS else 0) :=
  ⟨by decide, by decide, by decide, by decide,
   finishRowClearing_flat_line_score twoRowClearState ⟨2, false, false⟩ rfl
     (by decide) (by decide) (by decide) (by decide)⟩




/-- The scan's rowFull output for a board row. -/
def rowFullScan (b : Board) (j : Nat) : Bool := (scanRow (rowCells b j) 0 true).1

/-- The scan's sameColor output for a board row. -/
def rowMonoScan (b : Board) (j : Nat) : Bool := (scanRow (rowCells b j) 0 true).2

theorem scanRow_fst (cells : List Nat) (fc : Nat) (sc : Bool) :
    (scanRow cells fc sc).1 = cells.all (fun c => c != 0) := by
  induction cells generalizing fc sc with
  | nil => simp [scanRow]
  | cons c rest ih =>
    unfold scanRow
    split_ifs with h <;> simp [h, ih]

theorem scanRow_snd_of_ne (cells : List Nat) (fc : Nat) (hfc : fc ≠ 0) (sc : Bool)
    (hall : ∀ c ∈ cells, c ≠ 0) :
    (scanRow cells fc sc).2 = (sc && cells.all (fun c => c == fc)) := by
  induction cells generalizing sc with
  | nil => simp [scanRow]
  | cons c rest ih =>
    have hc : c ≠ 0 := hall c (List.mem_cons_self _ _)
    unfold scanRow
    rw [if_neg hc, if_neg hfc]
    by_cases hcf : c = fc
    · rw [if_neg (by simp [hcf])]
      rw [ih _ (fun x hx => hall x (List.mem_cons_of_mem _ hx))]
      simp [hcf]
    · rw [if_pos ⟨hfc, hcf⟩]
      rw [ih _ (fun x hx => hall x (List.mem_cons_of_mem _ hx))]
      simp [hcf]

theorem rowFullScan_iff (b : Board) (j : Nat) :
    rowFullScan b j = true ↔ ∀ i < BOARD_COLS, gget b i j ≠ 0 := by
  unfold rowFullScan rowCells
  rw [scanRow_fst]
  simp [List.all_eq_true, List.mem_range]

theorem rowMonoScan_iff (b : Board) (j : Nat)
    (hfull : ∀ i < BOARD_COLS, gget b i j ≠ 0) :
    rowMonoScan b j = true ↔ ∀ i < BOARD_COLS, gget b i j = gget b 0 j := by
  unfold rowMonoScan
  have hcells : rowCells b j =
      gget b 0 j :: (List.range 9).map (fun i => gget b (i + 1) j) := by
    unfold rowCells BOARD_COLS
    rw [List.range_succ_eq_map]
    simp [List.map_map]
  rw [hcells]
  unfold scanRow
  rw [if_neg (hfull 0 (by unfold BOARD_COLS; omega))]
  rw [if_pos rfl]
  rw [if_neg (by simp)]
  rw [scanRow_snd_of_ne _ _ (hfull 0 (by unfold BOARD_COLS; omega)) _ ?hall]
  case hall =>
    intro x hx
    simp only [List.mem_map, List.mem_range] at hx
    obtain ⟨i, hi, rfl⟩ := hx
    exact hfull (i + 1) (by unfold BOARD_COLS at *; omega)
  simp only [Bool.true_and, List.all_map, List.all_eq_true, List.mem_range,
    Function.comp, beq_iff_eq]
  constructor
  · intro h i hi
    rcases i with _ | k
    · rfl
    · exact h k (by unfold BOARD_COLS at hi; omega)
  · intro h i hi
    exact h (i + 1) (by unfold BOARD_COLS; omega)

theorem boardEmptyCheck_iff (b : Board) :
    boardEmptyCheck b = true ↔ ∀ i < BOARD_COLS, ∀ j < BOARD_ROWS, gget b i j = 0 := by
  unfold boardEmptyCheck
  simp [List.all_eq_true, List.mem_range]



theorem scanStep_eq (b : Board) (acc : List Nat × Bool) (j : Nat) :
    scanStep b acc j =
      if rowFullScan b j then (acc.1 ++ [j], acc.2 || rowMonoScan b j) else acc := rfl

theorem foldl_scanStep (b : Board) (l : List Nat) (acc : List Nat × Bool) :
    l.foldl (scanStep b) acc =
      (acc.1 ++ l.filter (fun j => rowFullScan b j),
       acc.2 || l.any (fun j => rowFullScan b j && rowMonoScan b j)) := by
  induction l generalizing acc with
  | nil => simp
  | cons j rest ih =>
    rw [List.foldl_cons, scanStep_eq]
    by_cases h : rowFullScan b j = true
    · rw [if_pos h, ih]
      simp [h, Bool.or_assoc]
    · rw [if_neg h, ih]
      simp [h, Bool.eq_false_iff.mpr h]

/-- The clear-count sound of `reduceRows` (none outside 1..4). -/
def clearEventList (n : Nat) : List Sound :=
  if n = 1 then [Sound.clear1]
  else if n = 2 then [Sound.clear2]
  else if n = 3 then [Sound.clear3]
  else if n = 4 then [Sound.clear4]
  else []

theorem reduceRows_clearing (s : GameState) (w : Bool)
    (hne : (List.range BOARD_ROWS).filter (fun j => rowFullScan s.board j) ≠ []) :
    reduceRows s w =
      { s with
        events := s.events ++ (if w then [Sound.drop] else [Sound.stick]) ++
          clearEventList
            ((List.range BOARD_ROWS).filter (fun j => rowFullScan s.board j)).length
        rowClearing :=
          ⟨(List.range BOARD_ROWS).filter (fun j => rowFullScan s.board j),
           s.tick.count,
           some ⟨((List.range BOARD_ROWS).filter (fun j => rowFullScan s.board j)).length,
                 (List.range BOARD_ROWS).any
                   (fun j => rowFullScan s.board j && rowMonoScan s.board j),
                 w⟩⟩ } := by
  have hlen : 0 < ((List.range BOARD_ROWS).filter (fun j => rowFullScan s.board j)).length :=
    List.length_pos.mpr hne
  unfold reduceRows
  by_cases hw : w = true
  · rw [if_pos hw]
    dsimp only
    rw [foldl_scanStep]
    dsimp only
    simp only [List.nil_append, Bool.false_or]
    rw [if_pos hlen, hw]
    unfold clearEventList
    split_ifs <;> simp_all [List.append_assoc]
  · rw [if_neg hw]
    dsimp only
    rw [foldl_scanStep]
    dsimp only
    simp only [List.nil_append, Bool.false_or]
    rw [if_pos hlen, Bool.eq_false_iff.mpr hw]
    unfold clearEventList
    split_ifs <;> simp_all [List.append_assoc]



theorem clearEventList_not_bonus (n : Nat) :
    Sound.bigBonus ∉ clearEventList n ∧ Sound.smallBonus ∉ clearEventList n := by
  unfold clearEventList
  split_ifs <;> simp

theorem any_full_mono_iff (b : Board) :
    ((List.range BOARD_ROWS).any (fun j => rowFullScan b j && rowMonoScan b j) = true) ↔
      ∃ j < BOARD_ROWS, (∀ i < BOARD_COLS, gget b i j ≠ 0) ∧
        ∀ i < BOARD_COLS, gget b i j = gget b 0 j := by
  simp only [List.any_eq_true, List.mem_range, Bool.and_eq_true]
  constructor
  · rintro ⟨j, hj, hf, hm⟩
    exact ⟨j, hj, (rowFullScan_iff b j).mp hf,
      (rowMonoScan_iff b j ((rowFullScan_iff b j).mp hf)).mp hm⟩
  · rintro ⟨j, hj, hf, hm⟩
    exact ⟨j, hj, (rowFullScan_iff b j).mpr hf, (rowMonoScan_iff b j hf).mpr hm⟩

/-- **C5.** In every row-clear resolution (a lock-time `reduceRows` that finds
full rows, followed by the `finishRowClearing` completion): if at least one
cleared full row has all 10 cells of one color id, the score gains +2500
exactly once regardless of how many such rows cleared (the bonus term is a
single flag); if the board is fully empty after compaction, the score gains
+10000; both bonuses are added additively on top of the flat line score when
both conditions hold, and the `smallBonus` event is emitted if and only if the
monochrome bonus applied and the `bigBonus` event did not fire. -/
theorem monochrome_and_board_clear_bonuses
    (s : GameState) (w : Bool)
    (hev : s.events = [])
    (hfull : ∃ j < BOARD_ROWS, ∀ i < BOARD_COLS, gget s.board i j ≠ 0) :
    ((finishRowClearing (reduceRows s w)).score.currentScore =
        s.score.currentScore +
          lineClearScore
            ((List.range BOARD_ROWS).filter (fun j => rowFullScan s.board j)).length +
          (if ∀ i < BOARD_COLS, ∀ j < BOARD_ROWS,
              gget ((finishRowClearing (reduceRows s w)).board) i j = 0
           then SCORE_CLEAR_BOARD_BONUS else 0) +
          (if ∃ j < BOARD_ROWS, (∀ i < BOARD_COLS, gget s.board i j ≠ 0) ∧
              ∀ i < BOARD_COLS, gget s.board i j = gget s.board 0 j
           then SCORE_SAME_COLOR_BONUS else 0)) ∧
    (Sound.bigBonus ∈ (finishRowClearing (reduceRows s w)).events ↔
      ∀ i < BOARD_COLS, ∀ j < BOARD_ROWS,
        gget ((finishRowClearing (reduceRows s w)).board) i j = 0) ∧
    (Sound.smallBonus ∈ (finishRowClearing (reduceRows s w)).events ↔
      ((∃ j < BOARD_ROWS, (∀ i < BOARD_COLS, gget s.board i j ≠ 0) ∧
          ∀ i < BOARD_COLS, gget s.board i j = gget s.board 0 j) ∧
       ¬∀ i < BOARD_COLS, ∀ j < BOARD_ROWS,
          gget ((finishRowClearing (reduceRows s w)).board) i j = 0)) := by
  obtain ⟨j0, hj0, hfull0⟩ := hfull
  have hmem : j0 ∈ (List.range BOARD_ROWS).filter (fun j => rowFullScan s.board j) :=
    List.mem_filter.mpr ⟨List.mem_range.mpr hj0, (rowFullScan_iff s.board j0).mpr hfull0⟩
  have hne : (List.range BOARD_ROWS).filter (fun j => rowFullScan s.board j) ≠ [] := by
    intro h
    rw [h] at hmem
    exact absurd hmem (List.not_mem_nil _)
  set F := (List.range BOARD_ROWS).filter (fun j => rowFullScan s.board j) with hF
  set anyB := (List.range BOARD_ROWS).any
    (fun j => rowFullScan s.board j && rowMonoScan s.board j) with hAnyB
  have hd : (reduceRows s w).rowClearing.clearAnimData =
      some ⟨F.length, anyB, w⟩ := by
    rw [reduceRows_clearing s w hne]
  have hspec := finishRowClearing_spec (reduceRows s w) ⟨F.length, anyB, w⟩ hd
  have hboard : (reduceRows s w).board = s.board := by
    rw [reduceRows_clearing s w hne]
  have hrows : (reduceRows s w).rowClearing.rowsToClear = F := by
    rw [reduceRows_clearing s w hne]
  have hcleared : clearedBoard (reduceRows s w) =
      (sortDesc F).foldl removeRow s.board := by
    unfold clearedBoard
    rw [hboard, hrows]
  have hEiff : (boardEmptyCheck (clearedBoard (reduceRows s w)) = true) ↔
      (∀ i < BOARD_COLS, ∀ j < BOARD_ROWS,
        gget ((finishRowClearing (reduceRows s w)).board) i j = 0) := by
    rw [hspec.2.2.2.1]
    exact boardEmptyCheck_iff _
  have hMiff : (anyB = true) ↔
      ∃ j < BOARD_ROWS, (∀ i < BOARD_COLS, gget s.board i j ≠ 0) ∧
        ∀ i < BOARD_COLS, gget s.board i j = gget s.board 0 j :=
    any_full_mono_iff s.board
  have he1 : (reduceRows s w).events =
      (if w then [Sound.drop] else [Sound.stick]) ++ clearEventList F.length := by
    rw [reduceRows_clearing s w hne]
    rw [hev]
    rw [List.nil_append]
  have hds1 : Sound.bigBonus ∉ (if w then [Sound.drop] else [Sound.stick]) := by
    rcases w with _ | _ <;> simp
  have hds2 : Sound.smallBonus ∉ (if w then [Sound.drop] else [Sound.stick]) := by
    rcases w with _ | _ <;> simp
  have hcl1 := (clearEventList_not_bonus F.length).1
  have hcl2 := (clearEventList_not_bonus F.length).2
  refine ⟨?_, ?_, ?_⟩
  · rw [hspec.1, reduceRows_score]
    rw [if_congr hEiff rfl rfl, if_congr hMiff rfl rfl]
  · have hev2 := hspec.2.2.2.2
    rw [he1] at hev2
    rw [hev2, ← hEiff]
    clear hev2 hspec hd hboard hrows hcleared he1 hmem hne hMiff hEiff hev hfull0 hj0
    dsimp only
    split_ifs <;> simp_all [List.mem_append]
  · have hev2 := hspec.2.2.2.2
    rw [he1] at hev2
    rw [hev2, ← hEiff, ← hMiff]
    clear hev2 hspec hd hboard hrows hcleared he1 hmem hne hEiff hMiff hev hfull0 hj0
    dsimp only
    split_ifs <;> simp_all [List.mem_append]




/-- A board whose bottom row is full of color 1 and otherwise empty
    (column-major). -/
def monoRowBoard : Board :=
  List.replicate BOARD_COLS (1 :: List.replicate (BOARD_ROWS - 1) 0)

def monoRowState : GameState :=
  { makeInitialGameState [] with board := monoRowBoard }

/-- Witness for C5: locking over a full monochrome bottom row on an otherwise
    empty board awards 100 + 10000 + 2500 and fires `bigBonus` (not
    `smallBonus`). -/
theorem monochrome_and_board_clear_bonuses_witness :
    monoRowState.events = [] ∧
    (∃ j < BOARD_ROWS, ∀ i < BOARD_COLS, gget monoRowState.board i j ≠ 0) ∧
    ((finishRowClearing (reduceRows monoRowState true)).score.currentScore =
        monoRowState.score.currentScore +
          lineClearScore
            ((List.range BOARD_ROWS).filter (fun j => rowFullScan monoRowState.board j)).length +
          (if ∀ i < BOARD_COLS, ∀ j < BOARD_ROWS,
              gget ((finishRowClearing (reduceRows monoRowState true)).board) i j = 0
           then SCORE_CLEAR_BOARD_BONUS else 0) +
          (if ∃ j < BOARD_ROWS, (∀ i < BOARD_COLS, gget monoRowState.board i j ≠ 0) ∧
              ∀ i < BOARD_COLS, gget monoRowState.board i j = gget monoRowState.board 0 j
           then SCORE_SAME_COLOR_BONUS else 0)) ∧
    (Sound.bigBonus ∈ (finishRowClearing (reduceRows monoRowState true)).events ↔
      ∀ i < BOARD_COLS, ∀ j < BOARD_ROWS,
        gget ((finishRowClearing (reduceRows monoRowState true)).board) i j = 0) ∧
    (Sound.smallBonus ∈ (finishRowClearing (reduceRows monoRowState true)).events ↔
      ((∃ j < BOARD_ROWS, (∀ i < BOARD_COLS, gget monoRowState.board i j ≠ 0) ∧
          ∀ i < BOARD_COLS, gget monoRowState.board i j = gget monoRowState.board 0 j) ∧
       ¬∀ i < BOARD_COLS, ∀ j < BOARD_ROWS,
          gget ((finishRowClearing (reduceRows monoRowState true)).board) i j = 0)) :=
  ⟨rfl, by decide,
   monochrome_and_board_clear_bonuses monoRowState true rfl (by decide)⟩




/-- Net effect of the `addHighScore` shift loop followed by the write at
    `index`, on a 10-entry table. -/
theorem shiftLoop_set_eq (a0 a1 a2 a3 a4 a5 a6 a7 a8 a9 e : HighScore)
    (idx : Nat) (hidx : idx ≤ 9) :
    (shiftLoop idx 9 [a0, a1, a2, a3, a4, a5, a6, a7, a8, a9]).set idx e =
      [a0, a1, a2, a3, a4, a5, a6, a7, a8, a9].take idx ++
        e :: ([a0, a1, a2, a3, a4, a5, a6, a7, a8, a9].drop idx).take (9 - idx) := by
  interval_cases idx <;> rfl

/-- Inserting the candidate at the index `findIndex` returns keeps the table
    sorted by descending score, for any truncation of the tail. -/
theorem sorted_take_insert_drop (hs : List HighScore) (e : HighScore) (idx m : Nat)
    (hsort : hs.Pairwise (fun a b => a.score ≥ b.score))
    (hfound : hs.findIdx? (fun h => e.score ≥ h.score) = some idx) :
    (hs.take idx ++ e :: (hs.drop idx).take m).Pairwise
      (fun a b => a.score ≥ b.score) := by
  obtain ⟨hlt, hp, hmin⟩ := List.findIdx?_eq_some_iff_getElem.mp hfound
  have hsplit := hsort
  rw [← List.take_append_drop idx hs] at hsplit
  rw [List.pairwise_append] at hsplit
  obtain ⟨htake, hdrop, hcross⟩ := hsplit
  have hfull : (hs.take idx ++ e :: hs.drop idx).Pairwise
      (fun a b => a.score ≥ b.score) := by
    rw [List.pairwise_append]
    refine ⟨htake, ?_, ?_⟩
    · rw [List.pairwise_cons]
      refine ⟨?_, hdrop⟩
      intro y hy
      rw [List.drop_eq_getElem_cons hlt] at hy
      rcases List.mem_cons.mp hy with rfl | hy2
      · exact of_decide_eq_true hp
      · have h1 : e.score ≥ hs[idx].score := of_decide_eq_true hp
        have hdrop2 := hdrop
        rw [List.drop_eq_getElem_cons hlt, List.pairwise_cons] at hdrop2
        have h2 : hs[idx].score ≥ y.score := hdrop2.1 y hy2
        omega
    · intro x hx y hy
      have hxe : e.score < x.score := by
        obtain ⟨k, hk, hkx⟩ := List.getElem_of_mem hx
        rw [List.getElem_take] at hkx
        have hklt : k < idx := by
          have := hk
          simp [List.length_take] at this
          omega
        have := hmin k (by omega)
        rw [hkx] at this
        simp at this
        omega
      rcases List.mem_cons.mp hy with rfl | hy2
      · omega
      · exact hcross x hx y hy2
  refine hfull.sublist ?_
  refine List.Sublist.append_left ?_ _
  exact List.Sublist.cons₂ e (List.take_sublist m _)


theorem shiftLoop_set_eq_of_len (hs : List HighScore) (e : HighScore) (idx : Nat)
    (hlen : hs.length = 10) (hidx : idx ≤ 9) :
    (shiftLoop idx 9 hs).set idx e =
      hs.take idx ++ e :: (hs.drop idx).take (9 - idx) := by
  rcases hs with _ | ⟨a0, hs⟩; · simp at hlen
  rcases hs with _ | ⟨a1, hs⟩; · simp at hlen
  rcases hs with _ | ⟨a2, hs⟩; · simp at hlen
  rcases hs with _ | ⟨a3, hs⟩; · simp at hlen
  rcases hs with _ | ⟨a4, hs⟩; · simp at hlen
  rcases hs with _ | ⟨a5, hs⟩; · simp at hlen
  rcases hs with _ | ⟨a6, hs⟩; · simp at hlen
  rcases hs with _ | ⟨a7, hs⟩; · simp at hlen
  rcases hs with _ | ⟨a8, hs⟩; · simp at hlen
  rcases hs with _ | ⟨a9, hs⟩; · simp at hlen
  rcases hs with _ | ⟨a10, hs⟩
  · exact shiftLoop_set_eq a0 a1 a2 a3 a4 a5 a6 a7 a8 a9 e idx hidx
  · simp at hlen



/-- **C9.** For every list of 10 high-score entries ordered by descending
score and every qualifying candidate (`isHighScore` true), `addHighScore`
inserts the new entry at the first index whose stored score the candidate's
score is greater than or equal to (every earlier stored score is strictly
greater), shifts all lower entries down by one and drops the former last
entry — the result is `take idx ++ entry :: (drop idx).take (9 - idx)` — and
the resulting list still has 10 entries and remains ordered by descending
score; a non-qualifying candidate (`isHighScore` false) gets no insertion
index (the gated call returns `none`). -/
theorem addHighScore_sorted_insert (hs : List HighScore) (e : HighScore)
    (hlen : hs.length = 10)
    (hsort : hs.Pairwise (fun a b => a.score ≥ b.score))
    (hqual : isHighScore hs e.score = true) :
    (∃ idx,
      hs.findIdx? (fun h => e.score ≥ h.score) = some idx ∧
      idx < 10 ∧
      e.score ≥ (hs.getD idx e).score ∧
      (∀ k, k < idx → e.score < (hs.getD k e).score) ∧
      addHighScore hs e =
        some (idx, hs.take idx ++ e :: (hs.drop idx).take (9 - idx)) ∧
      tryAddHighScore hs e =
        some (idx, hs.take idx ++ e :: (hs.drop idx).take (9 - idx)) ∧
      (hs.take idx ++ e :: (hs.drop idx).take (9 - idx)).length = 10 ∧
      (hs.take idx ++ e :: (hs.drop idx).take (9 - idx)).Pairwise
        (fun a b => a.score ≥ b.score)) ∧
    (∀ f : HighScore, isHighScore hs f.score = false → tryAddHighScore hs f = none) := by
  constructor
  · have hany : (hs.any fun h => e.score ≥ h.score) = true := by
      simp only [isHighScore, Bool.and_eq_true] at hqual
      exact hqual.2
    have hsome : (hs.findIdx? fun h => e.score ≥ h.score).isSome = true := by
      rw [List.findIdx?_isSome]
      exact hany
    obtain ⟨idx, hidx⟩ := Option.isSome_iff_exists.mp hsome
    obtain ⟨hlt, hp, hmin⟩ := List.findIdx?_eq_some_iff_getElem.mp hidx
    have hidx9 : idx ≤ 9 := by omega
    refine ⟨idx, hidx, by omega, ?_, ?_, ?_, ?_, ?_, ?_⟩
    · rw [List.getD_eq_getElem hs e (by omega)]
      exact of_decide_eq_true hp
    · intro k hk
      have := hmin k hk
      rw [List.getD_eq_getElem hs e (by omega)]
      simp at this
      omega
    · unfold addHighScore
      rw [hidx]
      dsimp only
      rw [show HIGH_SCORE_COUNT - 1 = 9 from rfl]
      rw [shiftLoop_set_eq_of_len hs e idx hlen hidx9]
    · unfold tryAddHighScore
      rw [if_pos hqual]
      unfold addHighScore
      rw [hidx]
      dsimp only
      rw [show HIGH_SCORE_COUNT - 1 = 9 from rfl]
      rw [shiftLoop_set_eq_of_len hs e idx hlen hidx9]
    · simp [List.length_take, List.length_drop, hlen]
      omega
    · exact sorted_take_insert_drop hs e idx (9 - idx) hsort hidx
  · intro f hf
    unfold tryAddHighScore
    rw [if_neg ?hneg]
    case hneg =>
      rw [hf]
      exact Bool.false_ne_true


/-- A full table sorted by descending score. -/
def sampleScores : List HighScore :=
  [⟨"p0", 100, 0, ""⟩, ⟨"p1", 90, 0, ""⟩, ⟨"p2", 80, 0, ""⟩, ⟨"p3", 70, 0, ""⟩,
   ⟨"p4", 60, 0, ""⟩, ⟨"p5", 50, 0, ""⟩, ⟨"p6", 40, 0, ""⟩, ⟨"p7", 30, 0, ""⟩,
   ⟨"p8", 20, 0, ""⟩, ⟨"p9", 10, 0, ""⟩]

/-- Witness for C9: a score of 55 lands at index 5 of the sample table. -/
theorem addHighScore_sorted_insert_witness :
    sampleScores.length = 10 ∧
    sampleScores.Pairwise (fun a b => a.score ≥ b.score) ∧
    isHighScore sampleScores (55 : Int) = true ∧
    ((∃ idx,
      sampleScores.findIdx?
        (fun h => (⟨"me", 55, 1, "d"⟩ : HighScore).score ≥ h.score) = some idx ∧
      idx < 10 ∧
      (⟨"me", 55, 1, "d"⟩ : HighScore).score ≥
        (sampleScores.getD idx ⟨"me", 55, 1, "d"⟩).score ∧
      (∀ k, k < idx → (⟨"me", 55, 1, "d"⟩ : HighScore).score <
        (sampleScores.getD k ⟨"me", 55, 1, "d"⟩).score) ∧
      addHighScore sampleScores ⟨"me", 55, 1, "d"⟩ =
        some (idx, sampleScores.take idx ++ (⟨"me", 55, 1, "d"⟩ : HighScore) ::
          (sampleScores.drop idx).take (9 - idx)) ∧
      tryAddHighScore sampleScores ⟨"me", 55, 1, "d"⟩ =
        some (idx, sampleScores.take idx ++ (⟨"me", 55, 1, "d"⟩ : HighScore) ::
          (sampleScores.drop idx).take (9 - idx)) ∧
      (sampleScores.take idx ++ (⟨"me", 55, 1, "d"⟩ : HighScore) ::
        (sampleScores.drop idx).take (9 - idx)).length = 10 ∧
      (sampleScores.take idx ++ (⟨"me", 55, 1, "d"⟩ : HighScore) ::
        (sampleScores.drop idx).take (9 - idx)).Pairwise
          (fun a b => a.score ≥ b.score)) ∧
    (∀ f : HighScore, isHighScore sampleScores f.score = false →
      tryAddHighScore sampleScores f = none)) :=
  ⟨by decide, by decide, by decide,
   addHighScore_sorted_insert sampleScores ⟨"me", 55, 1, "d"⟩
     (by decide) (by decide) (by decide)⟩



/-- A copy of a piece moved to the given height (the engine updates `height`
    in place). -/
def pieceAt (p : Piece) (h : Int) : Piece := { p with height := h }

theorem reduceRows_board (s : GameState) (w : Bool) :
    (reduceRows s w).board = s.board := by
  unfold reduceRows
  dsimp only
  split_ifs <;> simp [startNextPiece_board, resetMovementFlags_board]

theorem reduceRows_pending (s : GameState) (w : Bool) :
    (reduceRows s w).pendingDropScore = s.pendingDropScore := by
  unfold reduceRows
  dsimp only
  split_ifs <;>
    simp [startNextPiece_preserves, resetMovementFlags]

theorem tickOnce_hardDrop_step (s : GameState) (p : Piece)
    (hpc : s.currentPiece = some p)
    (hhd : s.hardDrop.isHardDropping = true)
    (hrows : s.rowClearing.rowsToClear = [])
    (hstart : s.hardDrop.hardDropStartTime ≤ s.tick.count)
    (hlegal1 : inLegalPos s.board (pieceAt p (p.height - 1)) = true) :
    tickOnce s =
      { s with
        tick := ⟨s.tick.accumulator - TICK_MS, s.tick.count + 1⟩
        hardDrop := ⟨true, s.tick.count + 1⟩
        currentPiece := some (pieceAt p (p.height - 1))
        pendingDropScore := s.pendingDropScore + 1 } := by
  unfold tickOnce processHardDrop
  dsimp only
  rw [hrows]
  rw [if_neg (by simp)]
  rw [if_pos hhd]
  rw [if_neg (by simp [hhd])]
  simp only [hpc]
  split_ifs with h1 h2 <;> first
  | (exfalso
     apply h2
     unfold pieceAt at hlegal1
     exact hlegal1)
  | (exfalso
     omega)
  | simp [pieceAt, hhd]



theorem tickOnce_hardDrop_lock (s : GameState) (p : Piece)
    (hpc : s.currentPiece = some p)
    (hhd : s.hardDrop.isHardDropping = true)
    (hrows : s.rowClearing.rowsToClear = [])
    (hstart : s.hardDrop.hardDropStartTime ≤ s.tick.count)
    (hillegal1 : inLegalPos s.board (pieceAt p (p.height - 1)) = false) :
    (tickOnce s).score.currentScore = s.score.currentScore + s.pendingDropScore ∧
    (tickOnce s).board = (placePiece s.board (pieceAt p (p.height - 1 + 1))).2 ∧
    (tickOnce s).pendingDropScore = 0 := by
  unfold tickOnce processHardDrop
  dsimp only
  rw [hrows]
  rw [if_neg (by simp)]
  rw [if_pos hhd]
  rw [if_neg (by simp [hhd])]
  simp only [hpc]
  unfold pieceAt at hillegal1
  split_ifs with h1 h2 h3
  · exfalso
    simp [hillegal1] at h2
  · refine ⟨?_, ?_, ?_⟩
    · simp only [reduceRows_score]
      show s.score.currentScore + (s.pendingDropScore + 1 - 1) =
        s.score.currentScore + s.pendingDropScore
      omega
    · simp only [reduceRows_board]
      rfl
    · simp only [reduceRows_pending]
  · refine ⟨?_, rfl, rfl⟩
    show s.score.currentScore + (s.pendingDropScore + 1 - 1) =
      s.score.currentScore + s.pendingDropScore
    omega
  · exfalso
    omega


theorem pieceAt_congr (p : Piece) {a b : Int} (h : a = b) : pieceAt p a = pieceAt p b := by
  rw [h]

/-- Iterating the tick loop through a hard drop of `N` legal descents and the
    final lock: score, board and pending-score outcome. -/
theorem hardDropIter_spec (N : Nat) : ∀ (s : GameState) (p : Piece),
    s.currentPiece = some p →
    s.hardDrop.isHardDropping = true →
    s.rowClearing.rowsToClear = [] →
    s.hardDrop.hardDropStartTime ≤ s.tick.count →
    (∀ k < N, inLegalPos s.board (pieceAt p (p.height - (k + 1))) = true) →
    inLegalPos s.board (pieceAt p (p.height - (N + 1))) = false →
    (tickIter (N + 1) s).score.currentScore =
      s.score.currentScore + s.pendingDropScore + N ∧
    (tickIter (N + 1) s).board =
      (placePiece s.board (pieceAt p (p.height - N))).2 ∧
    (tickIter (N + 1) s).pendingDropScore = 0 := by
  induction N with
  | zero =>
    intro s p hpc hhd hrows hstart hlegal hillegal
    have hill1 : inLegalPos s.board (pieceAt p (p.height - 1)) = false := by
      rw [pieceAt_congr p (show (p.height - 1) = p.height - ((0 : Nat) + 1) by push_cast; ring)]
      exact hillegal
    obtain ⟨h1, h2, h3⟩ := tickOnce_hardDrop_lock s p hpc hhd hrows hstart hill1
    refine ⟨?_, ?_, ?_⟩
    · show (tickOnce s).score.currentScore = _
      rw [h1]
      push_cast
      ring
    · show (tickOnce s).board = _
      rw [h2]
      rw [pieceAt_congr p (show (p.height - 1 + 1) = p.height - ((0 : Nat) : Int) by push_cast; ring)]
    · exact h3
  | succ N ih =>
    intro s p hpc hhd hrows hstart hlegal hillegal
    have hleg1 : inLegalPos s.board (pieceAt p (p.height - 1)) = true := by
      rw [pieceAt_congr p (show (p.height - 1) = p.height - ((0 : Nat) + 1) by push_cast; ring)]
      exact hlegal 0 (by omega)
    have hstep := tickOnce_hardDrop_step s p hpc hhd hrows hstart hleg1
    show (tickIter (N + 1) (tickOnce s)).score.currentScore = _ ∧
      (tickIter (N + 1) (tickOnce s)).board = _ ∧
      (tickIter (N + 1) (tickOnce s)).pendingDropScore = 0
    rw [hstep]
    have hleg2 : ∀ k, k < N →
        inLegalPos s.board (pieceAt p (p.height - 1 - (k + 1))) = true := by
      intro k hk
      rw [pieceAt_congr p
        (show (p.height - 1 - (k + 1)) = p.height - ((k + 1 : Nat) + 1) by push_cast; ring)]
      exact hlegal (k + 1) (by omega)
    have hill2 : inLegalPos s.board (pieceAt p (p.height - 1 - (N + 1))) = false := by
      rw [pieceAt_congr p
        (show (p.height - 1 - (N + 1)) = p.height - ((N + 1 : Nat) + 1) by push_cast; ring)]
      exact hillegal
    obtain ⟨ih1, ih2, ih3⟩ :=
      ih { s with
            tick := ⟨s.tick.accumulator - TICK_MS, s.tick.count + 1⟩
            hardDrop := ⟨true, s.tick.count + 1⟩
            currentPiece := some (pieceAt p (p.height - 1))
            pendingDropScore := s.pendingDropScore + 1 }
        (pieceAt p (p.height - 1)) rfl rfl hrows (le_refl _) hleg2 hill2
    refine ⟨?_, ?_, ih3⟩
    · rw [ih1]
      show s.score.currentScore + (s.pendingDropScore + 1) + (N : Int) = _
      push_cast
      ring
    · rw [ih2]
      show (placePiece s.board (pieceAt p (p.height - 1 - N))).2 = _
      rw [pieceAt_congr p
        (show (p.height - 1 - N) = p.height - ((N + 1 : Nat) : Int) by push_cast; ring)]



/-- **C6.** For every hard drop: from a hard-dropping state whose piece can
descend exactly `N` legal rows before the first illegal step, the `tick` call
spanning the `N + 1` drop ticks commits exactly `pendingDropScore + N` points
to the committed score at lock — with no pending freefall points, exactly `N`
— the point added for the illegal step having been retracted
(`pendingDropScore` ends at 0), and the piece reverts one row before
placement: the board is the placement of the piece at `height - N`, not
`height - (N + 1)`. -/
theorem hard_drop_commits_exact_points
    (s : GameState) (p : Piece) (N : Nat)
    (hpc : s.currentPiece = some p)
    (hhd : s.hardDrop.isHardDropping = true)
    (hrows : s.rowClearing.rowsToClear = [])
    (hstart : s.hardDrop.hardDropStartTime ≤ s.tick.count)
    (hacc : s.tick.accumulator = 0)
    (hpend : s.pendingDropScore = 0)
    (hlegal : ∀ k < N, inLegalPos s.board (pieceAt p (p.height - (k + 1))) = true)
    (hillegal : inLegalPos s.board (pieceAt p (p.height - (N + 1))) = false) :
    (tick ((N + 1) * TICK_MS) s).score.currentScore = s.score.currentScore + N ∧
    (tick ((N + 1) * TICK_MS) s).board =
      (placePiece s.board (pieceAt p (p.height - N))).2 ∧
    (tick ((N + 1) * TICK_MS) s).pendingDropScore = 0 := by
  rw [tick_eq, hacc]
  have hcount : (⌊((0 : ℚ) + (N + 1 : ℚ) * TICK_MS) / TICK_MS⌋).toNat = N + 1 := by
    have hT : (TICK_MS : ℚ) ≠ 0 := by norm_num [TICK_MS]
    rw [zero_add, mul_div_assoc, div_self hT, mul_one]
    rw [show ((N : ℚ) + 1) = ((N + 1 : ℕ) : ℚ) by push_cast; ring]
    rw [Int.floor_natCast]
    simp
  rw [hcount]
  obtain ⟨h1, h2, h3⟩ := hardDropIter_spec N
    { s with events := [], tick.accumulator := 0 + (N + 1 : ℚ) * TICK_MS }
    p hpc hhd hrows hstart hlegal hillegal
  refine ⟨?_, h2, h3⟩
  rw [h1]
  show s.score.currentScore + s.pendingDropScore + (N : Int) = _
  rw [hpend]
  ring



def hardDropRunState : GameState :=
  handleKeyDown (start 1 (makeInitialGameState [0, 0, 0])) " "

def squareAtSpawn : Piece :=
  ⟨21, 3, 0, [[0, 0, 0, 0], [0, 1, 1, 0], [0, 1, 1, 0], [0, 0, 0, 0]]⟩

theorem hard_drop_commits_exact_points_witness :
    hardDropRunState.currentPiece = some squareAtSpawn ∧
    hardDropRunState.hardDrop.isHardDropping = true ∧
    hardDropRunState.rowClearing.rowsToClear = [] ∧
    hardDropRunState.hardDrop.hardDropStartTime ≤ hardDropRunState.tick.count ∧
    hardDropRunState.tick.accumulator = 0 ∧
    hardDropRunState.pendingDropScore = 0 ∧
    (∀ k : Nat, k < 19 → inLegalPos hardDropRunState.board
      (pieceAt squareAtSpawn (squareAtSpawn.height - (k + 1))) = true) ∧
    inLegalPos hardDropRunState.board
      (pieceAt squareAtSpawn (squareAtSpawn.height - (19 + 1))) = false ∧
    ((tick ((19 + 1) * TICK_MS) hardDropRunState).score.currentScore =
      hardDropRunState.score.currentScore + 19 ∧
    (tick ((19 + 1) * TICK_MS) hardDropRunState).board =
      (placePiece hardDropRunState.board
        (pieceAt squareAtSpawn (squareAtSpawn.height - 19))).2 ∧
    (tick ((19 + 1) * TICK_MS) hardDropRunState).pendingDropScore = 0) :=
  ⟨by decide, by decide, by decide, by decide, rfl, by decide,
   by
     intro k hk
     have hall : ((List.range 19).all fun k => inLegalPos hardDropRunState.board
         (pieceAt squareAtSpawn (squareAtSpawn.height - (k + 1)))) = true := by decide
     exact List.all_eq_true.mp hall k (List.mem_range.mpr hk),
   by decide,
   hard_drop_commits_exact_points hardDropRunState squareAtSpawn 19
     (by decide) (by decide) (by decide) (by decide) rfl (by decide)
     (by
       intro k hk
       have hall : ((List.range 19).all fun k => inLegalPos hardDropRunState.board
           (pieceAt squareAtSpawn (squareAtSpawn.height - (k + 1)))) = true := by decide
       exact List.all_eq_true.mp hall k (List.mem_range.mpr hk))
     (by decide)⟩


/-- **C8.** The engine is deterministic: two runs given the same start level,
the same sequence of `tick`/`handleKeyDown`/`handleKeyUp` calls and the same
stream of random piece choices produce identical boards, scores, levels,
lines-cleared counts, event lists, and in fact identical full states — in the
embedding the engine is a pure function of exactly these inputs, the
`Math.random` draws having been made an explicit input stream. -/
theorem engine_deterministic (rand : List Nat) (level : Nat) (ops : List Op)
    (s1 s2 : GameState)
    (h1 : s1 = runTrace rand level ops) (h2 : s2 = runTrace rand level ops) :
    s1.board = s2.board ∧ s1.score.currentScore = s2.score.currentScore ∧
    s1.score.currentLevel = s2.score.currentLevel ∧
    s1.score.linesCleared = s2.score.linesCleared ∧
    s1.events = s2.events ∧ s1 = s2 := by
  subst h1
  subst h2
  exact ⟨rfl, rfl, rfl, rfl, rfl, rfl⟩

/-- Witness for C8 at a concrete level, trace and random stream. -/
theorem engine_deterministic_witness :
    (runTrace [2, 4, 6] 3 [Op.keyDown "j", Op.keyUp "j"]).board =
      (runTrace [2, 4, 6] 3 [Op.keyDown "j", Op.keyUp "j"]).board ∧
    (runTrace [2, 4, 6] 3 [Op.keyDown "j", Op.keyUp "j"]).score.currentScore =
      (runTrace [2, 4, 6] 3 [Op.keyDown "j", Op.keyUp "j"]).score.currentScore ∧
    (runTrace [2, 4, 6] 3 [Op.keyDown "j", Op.keyUp "j"]).score.currentLevel =
      (runTrace [2, 4, 6] 3 [Op.keyDown "j", Op.keyUp "j"]).score.currentLevel ∧
    (runTrace [2, 4, 6] 3 [Op.keyDown "j", Op.keyUp "j"]).score.linesCleared =
      (runTrace [2, 4, 6] 3 [Op.keyDown "j", Op.keyUp "j"]).score.linesCleared ∧
    (runTrace [2, 4, 6] 3 [Op.keyDown "j", Op.keyUp "j"]).events =
      (runTrace [2, 4, 6] 3 [Op.keyDown "j", Op.keyUp "j"]).events ∧
    runTrace [2, 4, 6] 3 [Op.keyDown "j", Op.keyUp "j"] =
      runTrace [2, 4, 6] 3 [Op.keyDown "j", Op.keyUp "j"] :=
  engine_deterministic [2, 4, 6] 3 [Op.keyDown "j", Op.keyUp "j"] _ _ rfl rfl

end TetrisMax
